import Mathlib

/-!
# Verification of the polars logical-plan IR core

A shallow embedding, in Lean 4, of the polars expression-lowering pass
(`crates/polars-plan/src/plans/conversion/dsl_to_ir/expr_to_ir.rs`), the
generic plan-node extraction/reconstruction utilities
(`crates/polars-plan/src/plans/ir/inputs.rs`, `.../ir/mod.rs`), and the `cut`
binning operator (`crates/polars-ops/src/series/ops/cut.rs`), together with
theorems settling the specified properties of these functions.

Conventions of the embedding:
* `PlSmallStr` is `String`; arena handles (`Node`) are natural numbers and an
  `Arena` is the append-only list of nodes, so `Arena.add` returns the index
  of the new last element, exactly as the source arena does.
* Rust panics (`unwrap`, out-of-bounds indexing, `assert!`, `unreachable!`)
  are modelled by `Option`/`Except` failure of the embedded function.
* Fallible Rust functions returning `PolarsResult<T>` become
  `Except PolarsError T`.
* Types owned by the crates but declared outside the embedded files are
  modelled as opaque one-field structures when the embedded code only clones
  them, or are explicitly marked `Modelled from the spec:` when their
  behavior matters.
-/

namespace PolarsSpec

/-! ## Basic names, handles, data types -/

abbrev PlSmallStr := String

/-- An arena handle (source: `Node`, a newtype around an index). -/
abbrev Node := Nat

/-- A closed fragment of the source's `DataType`, covering the cases the
lowering pass needs: concrete numerics, booleans, strings and nested lists. -/
inductive DataType where
  | int64
  | float64
  | boolean
  | str
  | list (inner : DataType)
  deriving DecidableEq, Repr

/-- An ordered name-to-type mapping (source: `Schema`). -/
abbrev Schema := List (PlSmallStr × DataType)

def Schema.lookup (s : Schema) (n : PlSmallStr) : Option DataType :=
  match s with
  | [] => none
  | (m, dt) :: rest => if m = n then some dt else Schema.lookup rest n

def Schema.containsName (s : Schema) (n : PlSmallStr) : Bool :=
  (Schema.lookup s n).isSome

def Schema.namesOf (s : Schema) : List PlSmallStr := s.map Prod.fst

/-- The typed error kinds of `PolarsError` that the embedded code raises.
`internal` models states the source treats as programming errors
(`unreachable!`, fuel exhaustion of the model). -/
inductive PolarsError where
  | computeError (msg : String)
  | invalidOperation (msg : String)
  | shapeMismatch (msg : String)
  | duplicate (msg : String)
  | columnNotFound (msg : String)
  | internal (msg : String)
  deriving DecidableEq, Repr

/-! ## Literals -/

/-- Modelled from the spec: the source's `LiteralValue` (declared outside the
embedded files) is "a two-state value (deferred-literal vs concrete-literal)
with an explicit, idempotent materialize operation".  The dynamic payload is
modelled as an integer; `materialize` resolves it to a concrete numeric type
(`int64` in the model). -/
inductive LiteralValue where
  | dyn (v : Int)
  | typed (dtype : DataType) (v : Int)
  deriving DecidableEq, Repr

/-- Modelled from the spec: resolving a deferred, type-ambiguous literal to
one concrete type; idempotent on already-concrete literals. -/
def LiteralValue.materialize : LiteralValue → LiteralValue
  | .dyn v => .typed .int64 v
  | lv => lv

def LiteralValue.isDyn : LiteralValue → Bool
  | .dyn _ => true
  | _ => false

/-- Modelled from the spec: the output name baked into a literal
(the source's `LiteralValue::output_column_name`, a fixed reserved name). -/
def LiteralValue.output_column_name (_ : LiteralValue) : PlSmallStr := "literal"

def LiteralValue.dtypeOf : LiteralValue → DataType
  | .dyn _ => .int64
  | .typed dt _ => dt

/-! ## Expression nodes (`AExpr`) and `ExprIR` -/

/-- Binary operators; the payload is opaque to every embedded function. -/
inductive Operator where
  | plus
  | minus
  | multiply
  | trueDivide
  | eq
  | lt
  deriving DecidableEq, Repr

/-- Quantile interpolation method; payload only, opaque to the embedding. -/
inductive QuantileMethod where
  | linear
  | nearest
  | lower
  deriving DecidableEq, Repr

/-- The arena-side aggregation node (source: `IRAggExpr`), children by handle. -/
inductive IRAggExpr where
  | min (input : Node) (propagate_nans : Bool)
  | max (input : Node) (propagate_nans : Bool)
  | median (input : Node)
  | nunique (input : Node)
  | first (input : Node)
  | last (input : Node)
  | mean (input : Node)
  | implode (input : Node)
  | count (input : Node) (include_nulls : Bool)
  | quantile (expr : Node) (quantile : Node) (method : QuantileMethod)
  | sum (input : Node)
  | std (input : Node) (ddof : Nat)
  | var (input : Node) (ddof : Nat)
  | aggGroups (input : Node)
  deriving DecidableEq, Repr

/-- The two element-wise evaluation variants of `Expr::Eval`/`AExpr::Eval`. -/
inductive EvalVariant where
  | list
  | cumulative (min_samples : Nat)
  deriving DecidableEq, Repr

/-- Modelled from the spec: `ExprIR`'s output-name policy — "either use this
explicit alias or inherit the name baked into the node itself"
(source: `OutputName`, declared outside the embedded files). -/
inductive OutputName where
  | alias (name : PlSmallStr)
  | inherit
  deriving DecidableEq, Repr

/-- `ExprIR`: an expression-node handle paired with its output-name policy. -/
structure ExprIR where
  node : Node
  output_name : OutputName
  deriving DecidableEq, Repr

def ExprIR.new (node : Node) (output_name : OutputName) : ExprIR :=
  ⟨node, output_name⟩

/-- Sort options attached to a single-column sort; payload only. -/
structure SortOptionsIR where
  descending : Bool := false
  nulls_last : Bool := false
  deriving DecidableEq, Repr

/-- Function behavior flags and options (source: `FunctionOptions` in
`options.rs`; `FunctionFlags` is a u16 bitset, modelled as the raw bits). -/
structure FunctionOptions where
  check_lengths : Bool := true
  flags : Nat := 0
  deriving DecidableEq, Repr

/-- The struct-function fragment reachable from the embedded lowering code. -/
inductive IRStructFunction where
  | fieldByName (name : PlSmallStr)
  deriving DecidableEq, Repr

inductive IRFunctionExpr where
  | structExpr (f : IRStructFunction)
  deriving DecidableEq, Repr

/-- Modelled from the spec: `IRFunctionExpr::function_options()` for the
field-by-name struct function is elementwise
(`ROW_SEPARABLE = 1 <<< 6` and `LENGTH_PRESERVING = 1 <<< 7` set). -/
def fieldByNameOptions : FunctionOptions :=
  { check_lengths := true, flags := 64 + 128 }

/-- The arena-allocated expression node (source: `AExpr`), covering the
constructs reachable from the embedded lowering fragment.  Children are
handles, never owned values. -/
inductive AExpr where
  | explode (expr : Node) (skip_empty : Bool)
  | column (name : PlSmallStr)
  | literal (lv : LiteralValue)
  | binaryExpr (left : Node) (op : Operator) (right : Node)
  | sort (expr : Node) (options : SortOptionsIR)
  | filter (input : Node) (byNode : Node)
  | agg (a : IRAggExpr)
  | ternary (predicate : Node) (truthy : Node) (falsy : Node)
  | eval (expr : Node) (evaluation : Node) (variant : EvalVariant)
  | function (input : List ExprIR) (function : IRFunctionExpr)
      (options : FunctionOptions)
  | len
  deriving DecidableEq, Repr

/-- The append-only arena of expression nodes. -/
abbrev Arena := List AExpr

/-- `Arena::add`: append and return the handle of the new node. -/
def Arena.add (a : Arena) (e : AExpr) : Node × Arena :=
  (a.length, a ++ [e])

/-- `Arena::get`, total for handles the arena issued. -/
def Arena.get (a : Arena) (n : Node) : Option AExpr := a[n]?

/-! ## The user-facing expression tree (`Expr`)

The source wraps the aggregate constructors in `Expr::Agg(AggExpr)`; the
embedding inlines the `AggExpr` variants as `agg*` constructors of `Expr` so
that the lowering pass is plainly structurally recursive.  The field names
and payloads match the source's `AggExpr` variant by variant. -/

inductive Expr where
  | explode (input : Expr) (skip_empty : Bool)
  | alias (e : Expr) (name : PlSmallStr)
  | literal (lv : LiteralValue)
  | column (name : PlSmallStr)
  | binaryExpr (left : Expr) (op : Operator) (right : Expr)
  | sort (expr : Expr) (options : SortOptionsIR)
  | filter (input : Expr) (byExpr : Expr)
  | aggMin (input : Expr) (propagate_nans : Bool)
  | aggMax (input : Expr) (propagate_nans : Bool)
  | aggMedian (input : Expr)
  | aggNUnique (input : Expr)
  | aggFirst (input : Expr)
  | aggLast (input : Expr)
  | aggMean (input : Expr)
  | aggImplode (input : Expr)
  | aggCount (input : Expr) (include_nulls : Bool)
  | aggQuantile (expr : Expr) (quantile : Expr) (method : QuantileMethod)
  | aggSum (input : Expr)
  | aggStd (input : Expr) (ddof : Nat)
  | aggVar (input : Expr) (ddof : Nat)
  | aggGroups (input : Expr)
  | ternary (predicate : Expr) (truthy : Expr) (falsy : Expr)
  | eval (expr : Expr) (evaluation : Expr) (variant : EvalVariant)
  | len
  | keepName (e : Expr)
  | field (name : PlSmallStr)
  deriving DecidableEq, Repr

/-- The source projection `Expr::Agg(agg) ↦ agg.input` (for `Quantile`, the
`expr` field): `some` exactly on the aggregate constructors. -/
def Expr.aggInput? : Expr → Option Expr
  | .aggMin input _ => some input
  | .aggMax input _ => some input
  | .aggMedian input => some input
  | .aggNUnique input => some input
  | .aggFirst input => some input
  | .aggLast input => some input
  | .aggMean input => some input
  | .aggImplode input => some input
  | .aggCount input _ => some input
  | .aggQuantile expr _ _ => some expr
  | .aggSum input => some input
  | .aggStd input _ => some input
  | .aggVar input _ => some input
  | .aggGroups input => some input
  | _ => none

/-! ## Collaborators of the lowering pass

These functions are consumed by `expr_to_ir.rs` but declared outside the
embedded files; each is modelled from the spec. -/

/-- Modelled from the spec: `AExpr::to_dtype`, "schema inference details
beyond what lowering needs" are out of scope, so the model resolves the
dtype of the node fragments lowering itself can produce and reports an
`internal` error elsewhere.  `fuel` bounds the recursion depth; the arenas
lowering builds always give children smaller indices than parents, so
`arena.length + 1` fuel is sufficient for them. -/
def to_dtype (fuel : Nat) (arena : Arena) (schema : Schema) (n : Node) :
    Except PolarsError DataType :=
  match fuel with
  | 0 => .error (.internal "to_dtype: out of fuel")
  | fuel + 1 =>
    match arena.get n with
    | none => .error (.internal "to_dtype: invalid node")
    | some e =>
      match e with
      | .column name =>
        match Schema.lookup schema name with
        | some dt => .ok dt
        | none => .error (.columnNotFound name)
      | .literal lv => .ok lv.dtypeOf
      | .sort e _ => to_dtype fuel arena schema e
      | .filter i _ => to_dtype fuel arena schema i
      | .explode e _ => do
        let dt ← to_dtype fuel arena schema e
        match dt with
        | .list inner => .ok inner
        | dt => .ok dt
      | _ => .error (.internal "to_dtype: not modelled for this node")

/-- Modelled from the spec: `EvalVariant::element_dtype` — the element type
of the placeholder column of the nested evaluation context, "derived from
`expr`'s type": the list inner type for the whole-list variant, the type
itself for the cumulative variant. -/
def EvalVariant.element_dtype (v : EvalVariant) (dt : DataType) :
    Except PolarsError DataType :=
  match v, dt with
  | .list, .list inner => .ok inner
  | .list, _ => .error (.invalidOperation "expected list dtype in `list.eval`")
  | .cumulative _, dt => .ok dt

/-- Modelled from the spec: `is_scalar_ae` — whether a lowered node is
scalar-returning (literals, aggregates and `Len` are; columns and
length-preserving nodes are not; binary and ternary nodes are scalar when
all their value inputs are). -/
def is_scalar_ae (fuel : Nat) (arena : Arena) (n : Node) : Bool :=
  match fuel with
  | 0 => false
  | fuel + 1 =>
    match arena.get n with
    | some (.literal _) => true
    | some (.agg _) => true
    | some .len => true
    | some (.binaryExpr l _ r) =>
      is_scalar_ae fuel arena l && is_scalar_ae fuel arena r
    | some (.ternary _ t f) =>
      is_scalar_ae fuel arena t && is_scalar_ae fuel arena f
    | _ => false

/-- The children of an expression node, in left-to-right source order. -/
def AExpr.children : AExpr → List Node
  | .explode e _ => [e]
  | .column _ => []
  | .literal _ => []
  | .binaryExpr l _ r => [l, r]
  | .sort e _ => [e]
  | .filter i b => [i, b]
  | .agg a =>
    match a with
    | .min i _ => [i]
    | .max i _ => [i]
    | .median i => [i]
    | .nunique i => [i]
    | .first i => [i]
    | .last i => [i]
    | .mean i => [i]
    | .implode i => [i]
    | .count i _ => [i]
    | .quantile e q _ => [e, q]
    | .sum i => [i]
    | .std i _ => [i]
    | .var i _ => [i]
    | .aggGroups i => [i]
  | .ternary p t f => [p, t, f]
  | .eval e ev _ => [e, ev]
  | .function input _ _ => input.map ExprIR.node
  | .len => []

/-- Modelled from the spec: the arena expression iterator
(`ArenaExprIter::iter`), "scanning the already-lowered subtree rooted at" a
node.  A stack-based depth-first pre-order walk, like the source iterator;
`fuel` bounds the number of steps (the walk visits the unfolded tree, so for
arenas whose children have smaller indices than their parents —
the invariant lowering maintains — `2 ^ (arena.length + 1)` steps suffice). -/
def subtreeWalk (fuel : Nat) (arena : Arena) (stack : List Node) :
    List AExpr :=
  match fuel with
  | 0 => []
  | fuel + 1 =>
    match stack with
    | [] => []
    | n :: rest =>
      match arena.get n with
      | none => subtreeWalk fuel arena rest
      | some e => e :: subtreeWalk fuel arena (e.children ++ rest)

/-- All expression nodes of the subtree rooted at `n`, in scan order. -/
def scanSubtree (arena : Arena) (n : Node) : List AExpr :=
  subtreeWalk (2 ^ (arena.length + 1)) arena [n]

/-- Source lines 403-412: the name of the first column (or struct
field-by-name function) node found by scanning the subtree rooted at `n`. -/
def firstNameIn (arena : Arena) (n : Node) : Option PlSmallStr :=
  (scanSubtree arena n).findSome? fun e =>
    match e with
    | .column name => some name
    | .function _ (.structExpr (.fieldByName name)) _ => some name
    | _ => none

/-- Source lines 373-381: every column node in the lowered evaluation
subtree must carry the empty placeholder name. -/
def listEvalColumnsEmpty (arena : Arena) (n : Node) : Bool :=
  (scanSubtree arena n).all fun e =>
    match e with
    | .column name => name.isEmpty
    | _ => true

/-- Modelled from the spec: `get_len_name()`, "a fixed reserved name". -/
def get_len_name : PlSmallStr := "len"

/-! ## The lowering pass (`expr_to_ir.rs`) -/

/-- The lowering context (source: `ExprToIRContext`): the current schema and
the optional enclosing-struct scope.  The arena is threaded explicitly
through the embedded functions instead of being a mutable field. -/
structure ExprToIRContext where
  with_fields : Option (Node × Schema)
  schema : Schema

/-- Source lines 58-69, fused with the `Expr::Literal` and `Expr::Alias`
branches of `to_aexpr_impl` (lines 90-94): the two expression shapes that
`to_aexpr_impl_materialized_lit` rewrites before lowering.  On those shapes
the subsequent lowering step is non-recursive, so the fused result is
returned directly (`some _`); on every other shape the caller falls through
to the plain `to_aexpr_impl` (`none`). -/
def matLitStep (e : Expr) (arena : Arena) :
    Option ((Node × PlSmallStr) × Arena) :=
  match e with
  | .literal (.dyn v) =>
    let lv := LiteralValue.materialize (.dyn v)
    let (n, arena) := arena.add (.literal lv)
    some ((n, lv.output_column_name), arena)
  | .alias (.literal (.dyn v)) name =>
    let lv := LiteralValue.materialize (.dyn v)
    let (n, arena) := arena.add (.literal lv)
    some ((n, name), arena)
  | _ => none

def listEvalNamedColumnMsg : String :=
  "named columns are not allowed in `list.eval`; consider using `element` or `col(\"\")`"

def cumulativeEvalMsg : String :=
  "`cumulative_eval` is not allowed with non-scalar output"

def keepNameMsg : String :=
  "`name.keep_name` expected at least one column or struct.field"

def fieldOutsideStructMsg : String :=
  "`pl.field()` called outside of struct context"

def fieldNotFoundMsg (name : PlSmallStr) (with_fields : Schema) : String :=
  "field `" ++ name ++ "` does not exist on struct with fields " ++
    toString (Schema.namesOf with_fields)

/-- The result of lowering one sub-expression: its handle, its output name,
and the arena extended with the inserted nodes. -/
abbrev LowerResult := Except PolarsError ((Node × PlSmallStr) × Arena)

/-- The recursive lowering worker (source: `to_aexpr_impl`, lines 80-463).
Call sites the source routes through `to_aexpr_impl_materialized_lit`
(aggregate inputs, ternary predicates, quantile positions) first try
`matLitStep` and fall back to the plain recursion, which is exactly that
function unfolded one step. -/
def to_aexpr_impl (e : Expr) (ctx : ExprToIRContext) (arena : Arena) :
    LowerResult :=
  match e with
  | .explode input skip_empty => do
    let ((en, output_name), arena) ← to_aexpr_impl input ctx arena
    let (n, arena) := arena.add (.explode en skip_empty)
    .ok ((n, output_name), arena)
  | .alias e name => do
    let ((n, _), arena) ← to_aexpr_impl e ctx arena
    .ok ((n, name), arena)
  | .literal lv =>
    let output_name := lv.output_column_name
    let (n, arena) := arena.add (.literal lv)
    .ok ((n, output_name), arena)
  | .column name =>
    let (n, arena) := arena.add (.column name)
    .ok ((n, name), arena)
  | .binaryExpr left op right => do
    let ((l, output_name), arena) ← to_aexpr_impl left ctx arena
    let ((r, _), arena) ← to_aexpr_impl right ctx arena
    let (n, arena) := arena.add (.binaryExpr l op r)
    .ok ((n, output_name), arena)
  | .sort expr options => do
    let ((en, output_name), arena) ← to_aexpr_impl expr ctx arena
    let (n, arena) := arena.add (.sort en options)
    .ok ((n, output_name), arena)
  | .filter input byExpr => do
    let ((i, output_name), arena) ← to_aexpr_impl input ctx arena
    let ((b, _), arena) ← to_aexpr_impl byExpr ctx arena
    let (n, arena) := arena.add (.filter i b)
    .ok ((n, output_name), arena)
  | .aggMin input propagate_nans => do
    let ((i, output_name), arena) ←
      (match matLitStep input arena with
       | some r => .ok r
       | none => to_aexpr_impl input ctx arena)
    let (n, arena) := arena.add (.agg (.min i propagate_nans))
    .ok ((n, output_name), arena)
  | .aggMax input propagate_nans => do
    let ((i, output_name), arena) ←
      (match matLitStep input arena with
       | some r => .ok r
       | none => to_aexpr_impl input ctx arena)
    let (n, arena) := arena.add (.agg (.max i propagate_nans))
    .ok ((n, output_name), arena)
  | .aggMedian input => do
    let ((i, output_name), arena) ←
      (match matLitStep input arena with
       | some r => .ok r
       | none => to_aexpr_impl input ctx arena)
    let (n, arena) := arena.add (.agg (.median i))
    .ok ((n, output_name), arena)
  | .aggNUnique input => do
    let ((i, output_name), arena) ←
      (match matLitStep input arena with
       | some r => .ok r
       | none => to_aexpr_impl input ctx arena)
    let (n, arena) := arena.add (.agg (.nunique i))
    .ok ((n, output_name), arena)
  | .aggFirst input => do
    let ((i, output_name), arena) ←
      (match matLitStep input arena with
       | some r => .ok r
       | none => to_aexpr_impl input ctx arena)
    let (n, arena) := arena.add (.agg (.first i))
    .ok ((n, output_name), arena)
  | .aggLast input => do
    let ((i, output_name), arena) ←
      (match matLitStep input arena with
       | some r => .ok r
       | none => to_aexpr_impl input ctx arena)
    let (n, arena) := arena.add (.agg (.last i))
    .ok ((n, output_name), arena)
  | .aggMean input => do
    let ((i, output_name), arena) ←
      (match matLitStep input arena with
       | some r => .ok r
       | none => to_aexpr_impl input ctx arena)
    let (n, arena) := arena.add (.agg (.mean i))
    .ok ((n, output_name), arena)
  | .aggImplode input => do
    let ((i, output_name), arena) ←
      (match matLitStep input arena with
       | some r => .ok r
       | none => to_aexpr_impl input ctx arena)
    let (n, arena) := arena.add (.agg (.implode i))
    .ok ((n, output_name), arena)
  | .aggCount input include_nulls => do
    let ((i, output_name), arena) ←
      (match matLitStep input arena with
       | some r => .ok r
       | none => to_aexpr_impl input ctx arena)
    let (n, arena) := arena.add (.agg (.count i include_nulls))
    .ok ((n, output_name), arena)
  | .aggQuantile expr quantile method => do
    let ((en, output_name), arena) ←
      (match matLitStep expr arena with
       | some r => .ok r
       | none => to_aexpr_impl expr ctx arena)
    let ((q, _), arena) ←
      (match matLitStep quantile arena with
       | some r => .ok r
       | none => to_aexpr_impl quantile ctx arena)
    let (n, arena) := arena.add (.agg (.quantile en q method))
    .ok ((n, output_name), arena)
  | .aggSum input => do
    let ((i, output_name), arena) ←
      (match matLitStep input arena with
       | some r => .ok r
       | none => to_aexpr_impl input ctx arena)
    let (n, arena) := arena.add (.agg (.sum i))
    .ok ((n, output_name), arena)
  | .aggStd input ddof => do
    let ((i, output_name), arena) ←
      (match matLitStep input arena with
       | some r => .ok r
       | none => to_aexpr_impl input ctx arena)
    let (n, arena) := arena.add (.agg (.std i ddof))
    .ok ((n, output_name), arena)
  | .aggVar input ddof => do
    let ((i, output_name), arena) ←
      (match matLitStep input arena with
       | some r => .ok r
       | none => to_aexpr_impl input ctx arena)
    let (n, arena) := arena.add (.agg (.var i ddof))
    .ok ((n, output_name), arena)
  | .aggGroups input => do
    let ((i, output_name), arena) ←
      (match matLitStep input arena with
       | some r => .ok r
       | none => to_aexpr_impl input ctx arena)
    let (n, arena) := arena.add (.agg (.aggGroups i))
    .ok ((n, output_name), arena)
  | .ternary predicate truthy falsy => do
    let ((p, _), arena) ←
      (match matLitStep predicate arena with
       | some r => .ok r
       | none => to_aexpr_impl predicate ctx arena)
    let ((t, output_name), arena) ← to_aexpr_impl truthy ctx arena
    let ((f, _), arena) ← to_aexpr_impl falsy ctx arena
    let (n, arena) := arena.add (.ternary p t f)
    .ok ((n, output_name), arena)
  | .eval expr evaluation variant => do
    let ((en, output_name), arena) ← to_aexpr_impl expr ctx arena
    let expr_dtype ← to_dtype (arena.length + 1) arena ctx.schema en
    let element_dtype ← variant.element_dtype expr_dtype
    let evaluation_schema : Schema := [("", element_dtype)]
    let evalCtx : ExprToIRContext :=
      { with_fields := none, schema := evaluation_schema }
    let ((ev, _), arena) ← to_aexpr_impl evaluation evalCtx arena
    match variant with
    | .list =>
      if listEvalColumnsEmpty arena ev then
        let (n, arena) := arena.add (.eval en ev variant)
        .ok ((n, output_name), arena)
      else
        .error (.computeError listEvalNamedColumnMsg)
    | .cumulative _ =>
      if is_scalar_ae (arena.length + 1) arena ev then
        let (n, arena) := arena.add (.eval en ev variant)
        .ok ((n, output_name), arena)
      else
        .error (.invalidOperation cumulativeEvalMsg)
  | .len =>
    let (n, arena) := arena.add .len
    .ok ((n, get_len_name), arena)
  | .keepName e => do
    let ((n, _), arena) ← to_aexpr_impl e ctx arena
    match firstNameIn arena n with
    | some name => .ok ((n, name), arena)
    | none => .error (.invalidOperation keepNameMsg)
  | .field name =>
    match ctx.with_fields with
    | none => .error (.invalidOperation fieldOutsideStructMsg)
    | some (input, with_fields) =>
      if Schema.containsName with_fields name then
        let func := IRFunctionExpr.structExpr (.fieldByName name)
        let (n, arena) :=
          arena.add (.function [ExprIR.new input (.alias "")] func
            fieldByNameOptions)
        .ok ((n, name), arena)
      else
        .error (.invalidOperation (fieldNotFoundMsg name with_fields))

/-- Source lines 54-71: materialize an outer dynamic literal (also under one
`Alias`) before lowering. -/
def to_aexpr_impl_materialized_lit (e : Expr) (ctx : ExprToIRContext)
    (arena : Arena) : LowerResult :=
  match matLitStep e arena with
  | some r => .ok r
  | none => to_aexpr_impl e ctx arena

/-- Source lines 14-17. -/
def to_expr_ir_with_context (e : Expr) (ctx : ExprToIRContext)
    (arena : Arena) : Except PolarsError (ExprIR × Arena) := do
  let ((node, output_name), arena) ← to_aexpr_impl e ctx arena
  .ok (ExprIR.new node (.alias output_name), arena)

/-- Source lines 5-12. -/
def to_expr_ir (e : Expr) (arena : Arena) (schema : Schema) :
    Except PolarsError (ExprIR × Arena) :=
  to_expr_ir_with_context e { with_fields := none, schema } arena

/-- Source lines 19-31. -/
def to_expr_ir_materialized_lit (e : Expr) (arena : Arena) (schema : Schema) :
    Except PolarsError (ExprIR × Arena) := do
  let ((node, output_name), arena) ←
    to_aexpr_impl_materialized_lit e { with_fields := none, schema } arena
  .ok (ExprIR.new node (.alias output_name), arena)

deriving instance DecidableEq for Except

/-! ## Plan nodes (`IR`, `ir/mod.rs`) and their metadata

Metadata types declared outside the embedded files are opaque to
`inputs.rs` (it only clones them); they are modelled as one-field
structures.  `DistinctOptionsIR` and `ProjectionOptions` are declared in the
embedded `options.rs` and are modelled field by field.  The `python` and
`merge_sorted` feature gates are taken as enabled. -/

structure PythonOptions where
  payload : Nat
  deriving DecidableEq, Repr

structure ScanSources where
  payload : Nat
  deriving DecidableEq, Repr

structure FileInfo where
  payload : Nat
  deriving DecidableEq, Repr

structure HivePartitionsDf where
  payload : Nat
  deriving DecidableEq, Repr

structure FileScanIR where
  payload : Nat
  deriving DecidableEq, Repr

structure UnifiedScanArgs where
  payload : Nat
  deriving DecidableEq, Repr

/-- An owned in-memory frame (opaque payload). -/
structure DataFrameRs where
  payload : Nat
  deriving DecidableEq, Repr

structure SortMultipleOptions where
  payload : Nat
  deriving DecidableEq, Repr

/-- Source: `UniqueId`; "keyed by a unique plan-subtree identity". -/
abbrev UniqueId := Nat

structure GroupbyOptions where
  payload : Nat
  deriving DecidableEq, Repr

/-- An opaque user-defined frame function; cloning shares the same value. -/
structure DataFrameUdf where
  payload : Nat
  deriving DecidableEq, Repr

structure JoinOptionsIR where
  payload : Nat
  deriving DecidableEq, Repr

structure UnionOptions where
  payload : Nat
  deriving DecidableEq, Repr

structure HConcatOptions where
  payload : Nat
  deriving DecidableEq, Repr

structure FunctionIR where
  payload : Nat
  deriving DecidableEq, Repr

structure UniqueKeepStrategy where
  payload : Nat
  deriving DecidableEq, Repr

/-- Source `options.rs` lines 9-23. -/
structure DistinctOptionsIR where
  subset : Option (List PlSmallStr)
  maintain_order : Bool
  keep_strategy : UniqueKeepStrategy
  slice : Option (Int × Nat)
  deriving DecidableEq, Repr

/-- Source `options.rs` lines 273-292. -/
structure ProjectionOptions where
  run_parallel : Bool
  duplicate_check : Bool
  should_broadcast : Bool
  deriving DecidableEq, Repr

/-- One per-partition sort key of a partitioned sink: its expression plus
non-tree flags.  Modelled from the spec: the declaration lives outside the
embedded files; `inputs.rs` reads and replaces its `expr` field only. -/
structure SortColumnIR where
  expr : ExprIR
  descending : Bool
  nulls_last : Bool
  deriving DecidableEq, Repr

/-- Partitioning variant of a sink (modelled from the spec: `inputs.rs`
touches the `key_exprs` of the `Parted`/`ByKey` variants only). -/
inductive PartitionVariantIR where
  | maxSize (size : Nat)
  | parted (key_exprs : List ExprIR) (include_key : Bool)
  | byKey (key_exprs : List ExprIR) (include_key : Bool)
  deriving DecidableEq, Repr

/-- A partitioned sink target; `rest` stands for the fields `inputs.rs`
never reads (base path, file type, ...). -/
structure PartitionTargetIR where
  variant : PartitionVariantIR
  per_partition_sort_by : Option (List SortColumnIR)
  rest : Nat
  deriving DecidableEq, Repr

/-- Sink payload (modelled from the spec: "single output target, possibly
partitioned with per-partition sort/key expressions"). -/
inductive SinkTypeIR where
  | memory
  | file (payload : Nat)
  | partition (p : PartitionTargetIR)
  deriving DecidableEq, Repr

/-- The plan-node tagged union (source: `IR` in `ir/mod.rs`, lines 42-165),
field for field and in source order. -/
inductive IR where
  | pythonScan (options : PythonOptions)
  | slice (input : Node) (offset : Int) (len : Nat)
  | filter (input : Node) (predicate : ExprIR)
  | scan (sources : ScanSources) (file_info : FileInfo)
      (hive_parts : Option HivePartitionsDf) (predicate : Option ExprIR)
      (output_schema : Option Schema) (scan_type : FileScanIR)
      (unified_scan_args : UnifiedScanArgs)
  | dataFrameScan (df : DataFrameRs) (schema : Schema)
      (output_schema : Option Schema)
  | simpleProjection (input : Node) (columns : Schema)
  | select (input : Node) (expr : List ExprIR) (schema : Schema)
      (options : ProjectionOptions)
  | sort (input : Node) (by_column : List ExprIR)
      (slice : Option (Int × Nat)) (sort_options : SortMultipleOptions)
  | cache (input : Node) (id : UniqueId) (cache_hits : Nat)
  | groupBy (input : Node) (keys : List ExprIR) (aggs : List ExprIR)
      (schema : Schema) (maintain_order : Bool) (options : GroupbyOptions)
      (apply : Option DataFrameUdf)
  | join (input_left : Node) (input_right : Node) (schema : Schema)
      (left_on : List ExprIR) (right_on : List ExprIR)
      (options : JoinOptionsIR)
  | hstack (input : Node) (exprs : List ExprIR) (schema : Schema)
      (options : ProjectionOptions)
  | distinct (input : Node) (options : DistinctOptionsIR)
  | mapFunction (input : Node) (function : FunctionIR)
  | union (inputs : List Node) (options : UnionOptions)
  | hconcat (inputs : List Node) (schema : Schema)
      (options : HConcatOptions)
  | extContext (input : Node) (contexts : List Node) (schema : Schema)
  | sink (input : Node) (payload : SinkTypeIR)
  | sinkMultiple (inputs : List Node)
  | mergeSorted (input_left : Node) (input_right : Node) (key : PlSmallStr)
  | invalid
  deriving DecidableEq, Repr

/-! ## Extraction and reconstruction (`inputs.rs`) -/

/-- The expressions a sink payload owns, in canonical order: partition key
expressions first, per-partition sort expressions trailing (source
`copy_exprs`, lines 207-220). -/
def sinkExprs : SinkTypeIR → List ExprIR
  | .partition p =>
    (match p.variant with
     | .parted key_exprs _ => key_exprs
     | .byKey key_exprs _ => key_exprs
     | _ => []) ++
    (match p.per_partition_sort_by with
     | some sort_by => sort_by.map (·.expr)
     | none => [])
  | _ => []

/-- Source: `IR::copy_exprs` (lines 176-227).  The container starts empty
here; the caller-supplied accumulator of the source is recovered by
appending.  `none` models the `unreachable!` on `Invalid`. -/
def IR.copy_exprs : IR → Option (List ExprIR)
  | .slice .. => some []
  | .cache .. => some []
  | .distinct .. => some []
  | .union .. => some []
  | .mapFunction .. => some []
  | .sinkMultiple .. => some []
  | .sort _ by_column _ _ => some by_column
  | .filter _ predicate => some [predicate]
  | .select _ expr _ _ => some expr
  | .groupBy _ keys aggs _ _ _ _ => some (keys ++ aggs)
  | .join _ _ _ left_on right_on _ => some (left_on ++ right_on)
  | .hstack _ exprs _ _ => some exprs
  | .scan _ _ _ predicate _ _ _ =>
    some (match predicate with
          | some pred => [pred]
          | none => [])
  | .dataFrameScan .. => some []
  | .pythonScan .. => some []
  | .sink _ payload => some (sinkExprs payload)
  | .hconcat .. => some []
  | .extContext .. => some []
  | .simpleProjection .. => some []
  | .mergeSorted .. => some []
  | .invalid => none

/-- Source: `IR::copy_inputs` (lines 239-290).  `none` models the
`unreachable!` on `Invalid`. -/
def IR.copy_inputs : IR → Option (List Node)
  | .union inputs _ => some inputs
  | .hconcat inputs _ _ => some inputs
  | .sinkMultiple inputs => some inputs
  | .slice input .. => some [input]
  | .filter input _ => some [input]
  | .select input .. => some [input]
  | .simpleProjection input _ => some [input]
  | .sort input .. => some [input]
  | .cache input .. => some [input]
  | .groupBy input .. => some [input]
  | .join input_left input_right .. => some [input_left, input_right]
  | .hstack input .. => some [input]
  | .distinct input _ => some [input]
  | .mapFunction input _ => some [input]
  | .sink input _ => some [input]
  | .extContext input contexts _ => some (contexts ++ [input])
  | .scan .. => some []
  | .dataFrameScan .. => some []
  | .pythonScan .. => some []
  | .mergeSorted input_left input_right _ => some [input_left, input_right]
  | .invalid => none

/-- The sink part of `with_exprs_and_input` (source lines 132-150): drain
the trailing per-partition sort expressions back into `per_partition_sort_by`
and replace the partition key expressions with the remainder.  `none` models
the two `assert!` panics. -/
def sinkWithExprs (payload : SinkTypeIR) (exprs : List ExprIR) :
    Option SinkTypeIR :=
  match payload with
  | .partition p => do
    let (exprs, sort_by) ←
      match p.per_partition_sort_by with
      | some sort_by =>
        if sort_by.length ≤ exprs.length then
          let k := exprs.length - sort_by.length
          some (exprs.take k,
            some (List.zipWith (fun s e => { s with expr := e }) sort_by
              (exprs.drop k)))
        else
          none
      | none => some (exprs, none)
    let variant ←
      match p.variant with
      | .parted key_exprs include_key =>
        if key_exprs.length = exprs.length then
          some (PartitionVariantIR.parted exprs include_key)
        else
          none
      | .byKey key_exprs include_key =>
        if key_exprs.length = exprs.length then
          some (PartitionVariantIR.byKey exprs include_key)
        else
          none
      | v => some v
    some (.partition { p with variant, per_partition_sort_by := sort_by })
  | payload => some payload

/-- Source: `IR::with_exprs_and_input` (lines 5-173): rebuild a node of the
same variant from freshly rewritten expression/input containers supplied in
canonical order.  `none` models the panics (`unwrap` on an empty container,
out-of-bounds indexing/slicing, failed `assert!`, `unreachable!`). -/
def IR.with_exprs_and_input (self : IR) (exprs : List ExprIR)
    (inputs : List Node) : Option IR :=
  match self with
  | .pythonScan options => some (.pythonScan options)
  | .union _ options => some (.union inputs options)
  | .hconcat _ schema options => some (.hconcat inputs schema options)
  | .slice _ offset len => do
    let i0 ← inputs[0]?
    some (.slice i0 offset len)
  | .filter _ _ => do
    let i0 ← inputs[0]?
    let pred ← exprs.getLast?
    some (.filter i0 pred)
  | .select _ _ schema options => do
    let i0 ← inputs[0]?
    some (.select i0 exprs schema options)
  | .groupBy _ keys _ schema maintain_order options apply => do
    let i0 ← inputs[0]?
    if keys.length ≤ exprs.length then
      some (.groupBy i0 (exprs.take keys.length) (exprs.drop keys.length)
        schema maintain_order options apply)
    else
      none
  | .join _ _ schema left_on _ options => do
    let i0 ← inputs[0]?
    let i1 ← inputs[1]?
    if left_on.length ≤ exprs.length then
      some (.join i0 i1 schema (exprs.take left_on.length)
        (exprs.drop left_on.length) options)
    else
      none
  | .sort _ _ slice0 sort_options => do
    let i0 ← inputs[0]?
    some (.sort i0 exprs slice0 sort_options)
  | .cache _ id cache_hits => do
    let i0 ← inputs[0]?
    some (.cache i0 id cache_hits)
  | .distinct _ options => do
    let i0 ← inputs[0]?
    some (.distinct i0 options)
  | .hstack _ _ schema options => do
    let i0 ← inputs[0]?
    some (.hstack i0 exprs schema options)
  | .scan sources file_info hive_parts predicate output_schema scan_type
      unified_scan_args => do
    let newPredicate ←
      match predicate with
      | some _ =>
        (match exprs.getLast? with
         | some pred => some (some pred)
         | none => none)
      | none => some none
    some (.scan sources file_info hive_parts newPredicate output_schema
      scan_type unified_scan_args)
  | .dataFrameScan df schema output_schema =>
    some (.dataFrameScan df schema output_schema)
  | .mapFunction _ function => do
    let i0 ← inputs[0]?
    some (.mapFunction i0 function)
  | .extContext _ _ schema => do
    let input ← inputs.getLast?
    some (.extContext input inputs.dropLast schema)
  | .sink _ payload => do
    let payload ← sinkWithExprs payload exprs
    let input ← inputs.getLast?
    some (.sink input payload)
  | .sinkMultiple _ => some (.sinkMultiple inputs)
  | .simpleProjection _ columns => do
    let input ← inputs.getLast?
    some (.simpleProjection input columns)
  | .mergeSorted _ _ key => do
    let i0 ← inputs[0]?
    let i1 ← inputs[1]?
    some (.mergeSorted i0 i1 key)
  | .invalid => none

/-! ## Tree-shape erasure

`stripTree` replaces every tree-shaped field of a plan node (expression
containers, child handles) by a fixed placeholder and keeps everything else,
so `stripTree a = stripTree b` says exactly: same variant, equal non-tree
metadata. -/

def dummyExprIR : ExprIR := ⟨0, .alias ""⟩

def SortColumnIR.strip (s : SortColumnIR) : SortColumnIR :=
  { s with expr := dummyExprIR }

def SinkTypeIR.strip : SinkTypeIR → SinkTypeIR
  | .partition p =>
    .partition
      { p with
        variant :=
          match p.variant with
          | .parted _ include_key => .parted [] include_key
          | .byKey _ include_key => .byKey [] include_key
          | v => v,
        per_partition_sort_by :=
          p.per_partition_sort_by.map (List.map SortColumnIR.strip) }
  | payload => payload

def IR.stripTree : IR → IR
  | .pythonScan options => .pythonScan options
  | .slice _ offset len => .slice 0 offset len
  | .filter _ _ => .filter 0 dummyExprIR
  | .scan sources file_info hive_parts predicate output_schema scan_type
      unified_scan_args =>
    .scan sources file_info hive_parts (predicate.map fun _ => dummyExprIR)
      output_schema scan_type unified_scan_args
  | .dataFrameScan df schema output_schema =>
    .dataFrameScan df schema output_schema
  | .simpleProjection _ columns => .simpleProjection 0 columns
  | .select _ _ schema options => .select 0 [] schema options
  | .sort _ _ slice0 sort_options => .sort 0 [] slice0 sort_options
  | .cache _ id cache_hits => .cache 0 id cache_hits
  | .groupBy _ _ _ schema maintain_order options apply =>
    .groupBy 0 [] [] schema maintain_order options apply
  | .join _ _ schema _ _ options => .join 0 0 schema [] [] options
  | .hstack _ _ schema options => .hstack 0 [] schema options
  | .distinct _ options => .distinct 0 options
  | .mapFunction _ function => .mapFunction 0 function
  | .union _ options => .union [] options
  | .hconcat _ schema options => .hconcat [] schema options
  | .extContext _ _ schema => .extContext 0 [] schema
  | .sink _ payload => .sink 0 payload.strip
  | .sinkMultiple _ => .sinkMultiple []
  | .mergeSorted _ _ key => .mergeSorted 0 0 key
  | .invalid => .invalid

/-! ## The `cut` binning operator (`cut.rs`)

The `f64` values reaching `cut` are NaN, the two infinities, or finite
numbers; finite doubles are rationals and `cut` only compares them, so the
model is `F64 := WithBot (WithBot (WithTop ℚ))`: the outer bottom is NaN,
the inner bottom/top are the infinities.  The model's total order places NaN
below everything; `cut` itself sorts only after rejecting NaN and its
boolean comparators return `false` on NaN exactly as Rust's `PartialOrd`
does, so the two orders agree on every comparison `cut` actually makes. -/

abbrev F64 := WithBot (WithBot (WithTop ℚ))

def F64.nan : F64 := ⊥

def F64.negInf : F64 := ((⊥ : WithBot (WithTop ℚ)) : F64)

def F64.posInf : F64 := (((⊤ : WithTop ℚ) : WithBot (WithTop ℚ)) : F64)

def F64.fin (q : ℚ) : F64 := (((q : WithTop ℚ) : WithBot (WithTop ℚ)) : F64)

def F64.isNaN (x : F64) : Bool := decide (x = F64.nan)

/-- Rust `x > v` on `f64`: false when either side is NaN. -/
def F64.gtb (x v : F64) : Bool := !x.isNaN && !v.isNaN && decide (v < x)

/-- Rust `x >= v` on `f64`: false when either side is NaN. -/
def F64.geb (x v : F64) : Bool := !x.isNaN && !v.isNaN && decide (v ≤ x)

/-- Rust `x < v` on `f64`: false when either side is NaN. -/
def F64.ltb (x v : F64) : Bool := !x.isNaN && !v.isNaN && decide (x < v)

/-- `breaks.windows(2).all(|x| x[0] != x[1])` (source line 99): all adjacent
pairs distinct. -/
def adjacentDistinct : List F64 → Bool
  | [] => true
  | [_] => true
  | a :: b :: t => decide (a ≠ b) && adjacentDistinct (b :: t)

/-- Display of an `f64` for default label formatting; the exact digits are
immaterial to every property proved below. -/
def F64.fmt : F64 → String
  | ⊥ => "NaN"
  | (⊥ : WithBot (WithTop ℚ)) => "-inf"
  | ((⊤ : WithTop ℚ) : WithBot (WithTop ℚ)) => "inf"
  | ((q : ℚ) : WithBot (WithTop ℚ)) => toString q

/-- Source lines 71-86: default interval labels from the break points. -/
def compute_labels (breaks : List F64) (left_closed : Bool) :
    Except PolarsError (List PlSmallStr) :=
  let lo := [F64.negInf] ++ breaks
  let hi := breaks ++ [F64.posInf]
  .ok (List.zipWith
    (fun l h =>
      if left_closed then
        "[" ++ l.fmt ++ ", " ++ h.fmt ++ ")"
      else
        "(" ++ l.fmt ++ ", " ++ h.fmt ++ "]")
    lo hi)

/-- The output of `map_cats`: a categorical column, or (when breaks are
included) a struct of the breakpoint column and the categorical column. -/
inductive CutResult where
  | cat (values : List (Option PlSmallStr))
  | struct_ (breakpoint : List (Option F64))
      (category : List (Option PlSmallStr))
  deriving DecidableEq

/-- Source lines 6-69: map every value to its bin.  The input column is
modelled as already-cast `f64` values (`s.cast(&DataType::Float64)` is the
identity there); `partition_point` on the sorted breaks is the length of
the satisfying prefix. -/
def map_cats (s : List (Option F64)) (labels : List PlSmallStr)
    (sorted_breaks : List F64) (left_closed include_breaks : Bool) :
    Except PolarsError CutResult :=
  let op := if left_closed then F64.geb else F64.gtb
  let idxOf : Option F64 → Option Nat := fun opt =>
    (opt.filter (fun x => !x.isNaN)).map
      (fun x => (sorted_breaks.takeWhile (fun v => op x v)).length)
  if include_breaks then
    let right_ends := sorted_breaks ++ [F64.posInf]
    .ok (.struct_
      (s.map fun o => (idxOf o).bind fun i => right_ends[i]?)
      (s.map fun o => (idxOf o).map fun i => labels.getD i ""))
  else
    .ok (.cat (s.map fun o => (idxOf o).map fun i => labels.getD i ""))

/-- Source lines 88-112: validate the breaks and labels, then bin.
The checks run in source order: NaN breaks, then (after sorting) duplicate
breaks, then infinite end breaks, then the label count. -/
def cut (s : List (Option F64)) (breaks : List F64)
    (labels : Option (List PlSmallStr)) (left_closed include_breaks : Bool) :
    Except PolarsError CutResult :=
  if breaks.any F64.isNaN then
    .error (.computeError "breaks cannot be NaN")
  else
    let sorted_breaks := List.insertionSort (· ≤ ·) breaks
    if ¬ adjacentDistinct sorted_breaks then
      .error (.duplicate "breaks are not unique")
    else
      let infCheck : Except PolarsError Unit :=
        match sorted_breaks.head?, sorted_breaks.getLast? with
        | some b0, some bl =>
          if ¬ F64.gtb b0 F64.negInf then
            .error (.computeError "don't include -inf in breaks")
          else if ¬ F64.ltb bl F64.posInf then
            .error (.computeError "don't include inf in breaks")
          else
            .ok ()
        | _, _ => .ok ()
      match infCheck with
      | .error e => .error e
      | .ok () =>
        match labels with
        | some l =>
          if l.length = sorted_breaks.length + 1 then
            map_cats s l sorted_breaks left_closed include_breaks
          else
            .error (.shapeMismatch "provide len(quantiles) + 1 labels")
        | none =>
          match compute_labels sorted_breaks left_closed with
          | .ok ls => map_cats s ls sorted_breaks left_closed include_breaks
          | .error e => .error e

/-! ## Auxiliary lemmas -/

theorem zipWith_restore (sbs : List SortColumnIR) :
    List.zipWith (fun s e => { s with expr := e }) sbs (sbs.map (·.expr)) =
      sbs := by
  induction sbs with
  | nil => rfl
  | cons s t ih => simp [ih]

theorem exists_single {α : Type _} (ns : List α) (h : ns.length = 1) :
    ∃ x, ns = [x] := by
  match ns, h with
  | [x], _ => exact ⟨x, rfl⟩

theorem exists_pair {α : Type _} (ns : List α) (h : ns.length = 2) :
    ∃ x y, ns = [x, y] := by
  match ns, h with
  | [x, y], _ => exact ⟨x, y, rfl⟩

theorem zipWith_strip (sbs : List SortColumnIR) (l : List ExprIR) :
    (List.zipWith (fun s e => { s with expr := e }) sbs l).map
        SortColumnIR.strip =
      (sbs.take l.length).map SortColumnIR.strip := by
  induction sbs generalizing l with
  | nil => simp
  | cons s t ih =>
    cases l with
    | nil => simp
    | cons e l' => simp [ih, SortColumnIR.strip]

theorem except_bind_ok {α β : Type _} {x : Except PolarsError α}
    {f : α → Except PolarsError β} {r : β} (h : (x >>= f) = .ok r) :
    ∃ v, x = .ok v ∧ f v = .ok r := by
  cases x with
  | error e => simp [Bind.bind, Except.bind] at h
  | ok v => exact ⟨v, rfl, by simpa [Bind.bind, Except.bind] using h⟩

theorem matLitStep_append {e : Expr} {a : Arena}
    {v : (Node × PlSmallStr) × Arena} (h : matLitStep e a = some v) :
    ∃ t, v.2 = a ++ t := by
  cases e <;> (try (simp [matLitStep] at h))
  · rename_i inner name
    cases inner <;> (try (simp [matLitStep] at h))
    rename_i lv
    cases lv with
    | dyn w =>
      simp [matLitStep, Arena.add] at h
      exact ⟨_, by rw [← h]⟩
    | typed dt w => simp [matLitStep] at h
  · rename_i lv
    cases lv with
    | dyn w =>
      simp [matLitStep, Arena.add] at h
      exact ⟨_, by rw [← h]⟩
    | typed dt w => simp [matLitStep] at h

theorem matlit_or_impl_append {e : Expr} {ctx : ExprToIRContext} {a : Arena}
    {v : (Node × PlSmallStr) × Arena}
    (ih : ∀ (ctx : ExprToIRContext) (a : Arena) (n : Node) (nm : PlSmallStr)
        (a' : Arena), to_aexpr_impl e ctx a = .ok ((n, nm), a') →
        ∃ t, a' = a ++ t)
    (h : (match matLitStep e a with
          | some r => Except.ok r
          | none => to_aexpr_impl e ctx a) = .ok v) :
    ∃ t, v.2 = a ++ t := by
  cases hms : matLitStep e a with
  | some r =>
    rw [hms] at h
    injection h with h
    subst h
    exact matLitStep_append hms
  | none =>
    rw [hms] at h
    obtain ⟨⟨n1, s1⟩, a1⟩ := v
    exact ih _ _ _ _ _ h

theorem lower_append_only (e : Expr) :
    ∀ (ctx : ExprToIRContext) (a : Arena) (n : Node) (nm : PlSmallStr)
      (a' : Arena), to_aexpr_impl e ctx a = .ok ((n, nm), a') →
      ∃ t, a' = a ++ t := by
  induction e with
  | explode input skip ih =>
    intro ctx a n nm a' h
    rw [to_aexpr_impl] at h
    obtain ⟨⟨⟨i, onm⟩, a1⟩, h1, h2⟩ := except_bind_ok h
    obtain ⟨t, rfl⟩ := ih _ _ _ _ _ h1
    simp [Arena.add] at h2
    exact ⟨t ++ [.explode i skip], h2.2.symm⟩
  | «alias» inner name ih =>
    intro ctx a n nm a' h
    rw [to_aexpr_impl] at h
    obtain ⟨⟨⟨i, onm⟩, a1⟩, h1, h2⟩ := except_bind_ok h
    obtain ⟨t, rfl⟩ := ih _ _ _ _ _ h1
    simp at h2
    exact ⟨t, h2.2.symm⟩
  | literal lv =>
    intro ctx a n nm a' h
    rw [to_aexpr_impl] at h
    simp [Arena.add] at h
    exact ⟨[.literal lv], h.2.symm⟩
  | column name =>
    intro ctx a n nm a' h
    rw [to_aexpr_impl] at h
    simp [Arena.add] at h
    exact ⟨[.column name], h.2.symm⟩
  | binaryExpr left op right ihl ihr =>
    intro ctx a n nm a' h
    rw [to_aexpr_impl] at h
    obtain ⟨⟨⟨l, onm⟩, a1⟩, h1, h2⟩ := except_bind_ok h
    obtain ⟨⟨⟨r, rnm⟩, a2⟩, h3, h4⟩ := except_bind_ok h2
    obtain ⟨t1, rfl⟩ := ihl _ _ _ _ _ h1
    obtain ⟨t2, rfl⟩ := ihr _ _ _ _ _ h3
    simp [Arena.add] at h4
    exact ⟨t1 ++ (t2 ++ [.binaryExpr l op r]), h4.2.symm⟩
  | sort expr options ih =>
    intro ctx a n nm a' h
    rw [to_aexpr_impl] at h
    obtain ⟨⟨⟨i, onm⟩, a1⟩, h1, h2⟩ := except_bind_ok h
    obtain ⟨t, rfl⟩ := ih _ _ _ _ _ h1
    simp [Arena.add] at h2
    exact ⟨t ++ [.sort i options], h2.2.symm⟩
  | filter input byExpr ihl ihr =>
    intro ctx a n nm a' h
    rw [to_aexpr_impl] at h
    obtain ⟨⟨⟨l, onm⟩, a1⟩, h1, h2⟩ := except_bind_ok h
    obtain ⟨⟨⟨r, rnm⟩, a2⟩, h3, h4⟩ := except_bind_ok h2
    obtain ⟨t1, rfl⟩ := ihl _ _ _ _ _ h1
    obtain ⟨t2, rfl⟩ := ihr _ _ _ _ _ h3
    simp [Arena.add] at h4
    exact ⟨t1 ++ (t2 ++ [.filter l r]), h4.2.symm⟩
  | aggMin input propagate_nans ih =>
    intro ctx a n nm a' h
    rw [to_aexpr_impl] at h
    obtain ⟨⟨⟨i, onm⟩, a1⟩, h1, h2⟩ := except_bind_ok h
    obtain ⟨t, rfl⟩ := matlit_or_impl_append ih h1
    simp [Arena.add] at h2
    exact ⟨t ++ [.agg (.min i propagate_nans)], h2.2.symm⟩
  | aggMax input propagate_nans ih =>
    intro ctx a n nm a' h
    rw [to_aexpr_impl] at h
    obtain ⟨⟨⟨i, onm⟩, a1⟩, h1, h2⟩ := except_bind_ok h
    obtain ⟨t, rfl⟩ := matlit_or_impl_append ih h1
    simp [Arena.add] at h2
    exact ⟨t ++ [.agg (.max i propagate_nans)], h2.2.symm⟩
  | aggMedian input ih =>
    intro ctx a n nm a' h
    rw [to_aexpr_impl] at h
    obtain ⟨⟨⟨i, onm⟩, a1⟩, h1, h2⟩ := except_bind_ok h
    obtain ⟨t, rfl⟩ := matlit_or_impl_append ih h1
    simp [Arena.add] at h2
    exact ⟨t ++ [.agg (.median i)], h2.2.symm⟩
  | aggNUnique input ih =>
    intro ctx a n nm a' h
    rw [to_aexpr_impl] at h
    obtain ⟨⟨⟨i, onm⟩, a1⟩, h1, h2⟩ := except_bind_ok h
    obtain ⟨t, rfl⟩ := matlit_or_impl_append ih h1
    simp [Arena.add] at h2
    exact ⟨t ++ [.agg (.nunique i)], h2.2.symm⟩
  | aggFirst input ih =>
    intro ctx a n nm a' h
    rw [to_aexpr_impl] at h
    obtain ⟨⟨⟨i, onm⟩, a1⟩, h1, h2⟩ := except_bind_ok h
    obtain ⟨t, rfl⟩ := matlit_or_impl_append ih h1
    simp [Arena.add] at h2
    exact ⟨t ++ [.agg (.first i)], h2.2.symm⟩
  | aggLast input ih =>
    intro ctx a n nm a' h
    rw [to_aexpr_impl] at h
    obtain ⟨⟨⟨i, onm⟩, a1⟩, h1, h2⟩ := except_bind_ok h
    obtain ⟨t, rfl⟩ := matlit_or_impl_append ih h1
    simp [Arena.add] at h2
    exact ⟨t ++ [.agg (.last i)], h2.2.symm⟩
  | aggMean input ih =>
    intro ctx a n nm a' h
    rw [to_aexpr_impl] at h
    obtain ⟨⟨⟨i, onm⟩, a1⟩, h1, h2⟩ := except_bind_ok h
    obtain ⟨t, rfl⟩ := matlit_or_impl_append ih h1
    simp [Arena.add] at h2
    exact ⟨t ++ [.agg (.mean i)], h2.2.symm⟩
  | aggImplode input ih =>
    intro ctx a n nm a' h
    rw [to_aexpr_impl] at h
    obtain ⟨⟨⟨i, onm⟩, a1⟩, h1, h2⟩ := except_bind_ok h
    obtain ⟨t, rfl⟩ := matlit_or_impl_append ih h1
    simp [Arena.add] at h2
    exact ⟨t ++ [.agg (.implode i)], h2.2.symm⟩
  | aggCount input include_nulls ih =>
    intro ctx a n nm a' h
    rw [to_aexpr_impl] at h
    obtain ⟨⟨⟨i, onm⟩, a1⟩, h1, h2⟩ := except_bind_ok h
    obtain ⟨t, rfl⟩ := matlit_or_impl_append ih h1
    simp [Arena.add] at h2
    exact ⟨t ++ [.agg (.count i include_nulls)], h2.2.symm⟩
  | aggSum input ih =>
    intro ctx a n nm a' h
    rw [to_aexpr_impl] at h
    obtain ⟨⟨⟨i, onm⟩, a1⟩, h1, h2⟩ := except_bind_ok h
    obtain ⟨t, rfl⟩ := matlit_or_impl_append ih h1
    simp [Arena.add] at h2
    exact ⟨t ++ [.agg (.sum i)], h2.2.symm⟩
  | aggStd input ddof ih =>
    intro ctx a n nm a' h
    rw [to_aexpr_impl] at h
    obtain ⟨⟨⟨i, onm⟩, a1⟩, h1, h2⟩ := except_bind_ok h
    obtain ⟨t, rfl⟩ := matlit_or_impl_append ih h1
    simp [Arena.add] at h2
    exact ⟨t ++ [.agg (.std i ddof)], h2.2.symm⟩
  | aggVar input ddof ih =>
    intro ctx a n nm a' h
    rw [to_aexpr_impl] at h
    obtain ⟨⟨⟨i, onm⟩, a1⟩, h1, h2⟩ := except_bind_ok h
    obtain ⟨t, rfl⟩ := matlit_or_impl_append ih h1
    simp [Arena.add] at h2
    exact ⟨t ++ [.agg (.var i ddof)], h2.2.symm⟩
  | aggGroups input ih =>
    intro ctx a n nm a' h
    rw [to_aexpr_impl] at h
    obtain ⟨⟨⟨i, onm⟩, a1⟩, h1, h2⟩ := except_bind_ok h
    obtain ⟨t, rfl⟩ := matlit_or_impl_append ih h1
    simp [Arena.add] at h2
    exact ⟨t ++ [.agg (.aggGroups i)], h2.2.symm⟩
  | aggQuantile expr quantile method ihe ihq =>
    intro ctx a n nm a' h
    rw [to_aexpr_impl] at h
    obtain ⟨⟨⟨i, onm⟩, a1⟩, h1, h2⟩ := except_bind_ok h
    obtain ⟨⟨⟨q, qnm⟩, a2⟩, h3, h4⟩ := except_bind_ok h2
    obtain ⟨t1, rfl⟩ := matlit_or_impl_append ihe h1
    obtain ⟨t2, rfl⟩ := matlit_or_impl_append ihq h3
    simp [Arena.add] at h4
    exact ⟨t1 ++ (t2 ++ [.agg (.quantile i q method)]), h4.2.symm⟩
  | ternary predicate truthy falsy ihp iht ihf =>
    intro ctx a n nm a' h
    rw [to_aexpr_impl] at h
    obtain ⟨⟨⟨p, pnm⟩, a1⟩, h1, h2⟩ := except_bind_ok h
    obtain ⟨⟨⟨t, tnm⟩, a2⟩, h3, h4⟩ := except_bind_ok h2
    obtain ⟨⟨⟨f, fnm⟩, a3⟩, h5, h6⟩ := except_bind_ok h4
    obtain ⟨t1, rfl⟩ := matlit_or_impl_append ihp h1
    obtain ⟨t2, rfl⟩ := iht _ _ _ _ _ h3
    obtain ⟨t3, rfl⟩ := ihf _ _ _ _ _ h5
    simp [Arena.add] at h6
    exact ⟨t1 ++ (t2 ++ (t3 ++ [.ternary p t f])), h6.2.symm⟩
  | eval expr evaluation variant ihe ihv =>
    intro ctx a n nm a' h
    rw [to_aexpr_impl] at h
    obtain ⟨⟨⟨i, onm⟩, a1⟩, h1, h2⟩ := except_bind_ok h
    obtain ⟨dt, h3, h4⟩ := except_bind_ok h2
    obtain ⟨edt, h5, h6⟩ := except_bind_ok h4
    obtain ⟨⟨⟨ev, evnm⟩, a2⟩, h7, h8⟩ := except_bind_ok h6
    obtain ⟨t1, rfl⟩ := ihe _ _ _ _ _ h1
    obtain ⟨t2, rfl⟩ := ihv _ _ _ _ _ h7
    cases variant with
    | list =>
      by_cases hcc : listEvalColumnsEmpty (a ++ (t1 ++ t2)) ev = true
      · simp [hcc, Arena.add] at h8
        exact ⟨t1 ++ (t2 ++ [.eval i ev .list]), h8.2.symm⟩
      · simp [hcc] at h8
    | cumulative k =>
      by_cases hcc : is_scalar_ae (a.length + (t1.length + t2.length) + 1)
          (a ++ (t1 ++ t2)) ev = true
      · simp [hcc, Arena.add] at h8
        exact ⟨t1 ++ (t2 ++ [.eval i ev (.cumulative k)]), h8.2.symm⟩
      · simp [hcc] at h8
  | len =>
    intro ctx a n nm a' h
    rw [to_aexpr_impl] at h
    simp [Arena.add] at h
    exact ⟨[.len], h.2.symm⟩
  | keepName inner ih =>
    intro ctx a n nm a' h
    rw [to_aexpr_impl] at h
    obtain ⟨⟨⟨i, onm⟩, a1⟩, h1, h2⟩ := except_bind_ok h
    obtain ⟨t, rfl⟩ := ih _ _ _ _ _ h1
    cases hf : firstNameIn (a ++ t) i with
    | some name =>
      simp only [hf] at h2
      simp at h2
      exact ⟨t, h2.2.symm⟩
    | none =>
      simp only [hf] at h2
      simp at h2
  | field name =>
    intro ctx a n nm a' h
    rw [to_aexpr_impl] at h
    cases hw : ctx.with_fields with
    | none =>
      rw [hw] at h
      simp at h
    | some iw =>
      obtain ⟨iv, wf⟩ := iw
      rw [hw] at h
      by_cases hc : Schema.containsName wf name = true
      · simp [hc, Arena.add] at h
        exact ⟨_, h.2.symm⟩
      · simp [hc] at h

/-! ## Claims -/

/-- C1.  For every IR variant holding expressions and child handles
(every variant but the `Invalid` placeholder), feeding the containers
extracted by `copy_exprs` and `copy_inputs` unchanged back into
`with_exprs_and_input` rebuilds a node equal to the original in every
observable field. -/
theorem copy_exprs_inputs_roundtrip (ir : IR) (h : ir ≠ IR.invalid)
    (es : List ExprIR) (ns : List Node) (he : ir.copy_exprs = some es)
    (hn : ir.copy_inputs = some ns) :
    ir.with_exprs_and_input es ns = some ir := by
  cases ir <;>
    simp_all [IR.copy_exprs, IR.copy_inputs, IR.with_exprs_and_input,
      sinkExprs, sinkWithExprs]
  case slice => subst hn; simp
  case filter => subst hn; subst he; simp
  case scan _ _ _ predicate _ _ _ =>
    subst hn
    cases predicate with
    | none => subst he; simp
    | some pred => subst he; simp
  case simpleProjection => subst hn; simp
  case select => subst hn; simp
  case sort => subst hn; simp
  case cache => subst hn; simp
  case groupBy keys aggs _ _ _ _ _ =>
    subst hn; subst he
    simp [List.take_left, List.drop_left]
  case join left_on right_on _ _ _ _ =>
    subst hn; subst he
    simp [List.take_left, List.drop_left]
  case hstack => subst hn; simp
  case distinct => subst hn; simp
  case mapFunction => subst hn; simp
  case extContext input contexts _ =>
    subst hn; subst he
    simp [List.getLast?_concat, List.dropLast_concat]
  case sink input payload =>
    subst hn; subst he
    cases payload with
    | memory => simp [sinkWithExprs, sinkExprs]
    | file p => simp [sinkWithExprs, sinkExprs]
    | partition p =>
      obtain ⟨variant, sort_by, rest⟩ := p
      cases variant <;> cases sort_by <;>
        simp [sinkWithExprs, sinkExprs, List.take_left, List.drop_left,
          zipWith_restore, List.getLast?_concat]
  case mergeSorted => subst hn; simp

/-- Witness for C1 at a concrete partitioned sink node. -/
theorem copy_exprs_inputs_roundtrip_witness :
    (IR.sink 3 (.partition ⟨.parted [⟨1, .alias "k"⟩] true,
        some [⟨⟨2, .alias "s"⟩, true, false⟩], 7⟩) ≠ IR.invalid) ∧
    (IR.sink 3 (.partition ⟨.parted [⟨1, .alias "k"⟩] true,
        some [⟨⟨2, .alias "s"⟩, true, false⟩], 7⟩)).with_exprs_and_input
        [⟨1, .alias "k"⟩, ⟨2, .alias "s"⟩] [3] =
      some (IR.sink 3 (.partition ⟨.parted [⟨1, .alias "k"⟩] true,
        some [⟨⟨2, .alias "s"⟩, true, false⟩], 7⟩)) :=
  ⟨by decide,
   copy_exprs_inputs_roundtrip _ (by decide) _ _ (by decide) (by decide)⟩

/-- C8.  For every IR variant (except the `Invalid` placeholder) and any
expression/input containers of the canonical lengths, `with_exprs_and_input`
succeeds, returns the identical variant, and carries over every non-tree
metadata field unchanged (`stripTree` erases exactly the expression and
child-handle fields). -/
theorem with_exprs_and_input_preserves_metadata (ir : IR) (es : List ExprIR)
    (ns : List Node) (l1 : List ExprIR) (l2 : List Node)
    (h : ir ≠ IR.invalid) (he : ir.copy_exprs = some l1)
    (hn : ir.copy_inputs = some l2) (hel : es.length = l1.length)
    (hnl : ns.length = l2.length) :
    ∃ ir', ir.with_exprs_and_input es ns = some ir' ∧
      ir'.stripTree = ir.stripTree := by
  cases ir <;> (try exact absurd rfl h) <;>
    (simp only [IR.copy_exprs] at he
     simp only [IR.copy_inputs] at hn
     injection he with he
     injection hn with hn
     subst he
     subst hn)
  case pythonScan => exact ⟨_, rfl, rfl⟩
  case union => exact ⟨_, rfl, rfl⟩
  case hconcat => exact ⟨_, rfl, rfl⟩
  case dataFrameScan => exact ⟨_, rfl, rfl⟩
  case sinkMultiple => exact ⟨_, rfl, rfl⟩
  case slice =>
    obtain ⟨x, rfl⟩ := exists_single ns (by simpa using hnl)
    exact ⟨_, rfl, rfl⟩
  case filter =>
    obtain ⟨x, rfl⟩ := exists_single ns (by simpa using hnl)
    obtain ⟨p, rfl⟩ := exists_single es (by simpa using hel)
    exact ⟨_, rfl, rfl⟩
  case scan _ _ _ predicate _ _ _ =>
    cases predicate with
    | none => exact ⟨_, rfl, rfl⟩
    | some pred =>
      obtain ⟨p, rfl⟩ := exists_single es (by simpa using hel)
      exact ⟨_, rfl, rfl⟩
  case simpleProjection =>
    obtain ⟨x, rfl⟩ := exists_single ns (by simpa using hnl)
    exact ⟨_, rfl, rfl⟩
  case select =>
    obtain ⟨x, rfl⟩ := exists_single ns (by simpa using hnl)
    exact ⟨_, rfl, rfl⟩
  case sort =>
    obtain ⟨x, rfl⟩ := exists_single ns (by simpa using hnl)
    exact ⟨_, rfl, rfl⟩
  case cache =>
    obtain ⟨x, rfl⟩ := exists_single ns (by simpa using hnl)
    exact ⟨_, rfl, rfl⟩
  case groupBy _ keys aggs sch mo opts app =>
    obtain ⟨x, rfl⟩ := exists_single ns (by simpa using hnl)
    have hk : keys.length ≤ es.length := by simp at hel; omega
    refine ⟨IR.groupBy x (es.take keys.length) (es.drop keys.length) sch mo
      opts app, ?_, rfl⟩
    simp [IR.with_exprs_and_input, hk]
  case join _ _ sch left_on right_on opts =>
    obtain ⟨x, y, rfl⟩ := exists_pair ns (by simpa using hnl)
    have hk : left_on.length ≤ es.length := by simp at hel; omega
    refine ⟨IR.join x y sch (es.take left_on.length)
      (es.drop left_on.length) opts, ?_, rfl⟩
    simp [IR.with_exprs_and_input, hk]
  case hstack =>
    obtain ⟨x, rfl⟩ := exists_single ns (by simpa using hnl)
    exact ⟨_, rfl, rfl⟩
  case distinct =>
    obtain ⟨x, rfl⟩ := exists_single ns (by simpa using hnl)
    exact ⟨_, rfl, rfl⟩
  case mapFunction =>
    obtain ⟨x, rfl⟩ := exists_single ns (by simpa using hnl)
    exact ⟨_, rfl, rfl⟩
  case extContext input contexts sch =>
    have hne : ns ≠ [] := by
      intro hcon
      subst hcon
      simp at hnl
    obtain ⟨x, hx⟩ := Option.isSome_iff_exists.mp (List.getLast?_isSome.mpr hne)
    refine ⟨IR.extContext x ns.dropLast sch, ?_, rfl⟩
    simp [IR.with_exprs_and_input, hx]
  case mergeSorted =>
    obtain ⟨x, y, rfl⟩ := exists_pair ns (by simpa using hnl)
    exact ⟨_, rfl, rfl⟩
  case sink input payload =>
    have hne : ns ≠ [] := by
      intro hcon
      subst hcon
      simp at hnl
    obtain ⟨x, hx⟩ := Option.isSome_iff_exists.mp (List.getLast?_isSome.mpr hne)
    cases payload with
    | memory =>
      refine ⟨IR.sink x .memory, ?_, rfl⟩
      simp [IR.with_exprs_and_input, sinkWithExprs, hx]
    | file p =>
      refine ⟨IR.sink x (.file p), ?_, rfl⟩
      simp [IR.with_exprs_and_input, sinkWithExprs, hx]
    | partition p =>
      obtain ⟨variant, sort_by, rest⟩ := p
      simp only [sinkExprs] at hel
      cases sort_by with
      | none =>
        cases variant with
        | maxSize size =>
          refine ⟨IR.sink x (.partition ⟨.maxSize size, none, rest⟩), ?_, rfl⟩
          simp [IR.with_exprs_and_input, sinkWithExprs, hx]
        | parted key_exprs ik =>
          have hk : key_exprs.length = es.length := by simp at hel; omega
          refine ⟨IR.sink x (.partition ⟨.parted es ik, none, rest⟩), ?_, ?_⟩
          · simp [IR.with_exprs_and_input, sinkWithExprs, hx, hk]
          · simp [IR.stripTree, SinkTypeIR.strip]
        | byKey key_exprs ik =>
          have hk : key_exprs.length = es.length := by simp at hel; omega
          refine ⟨IR.sink x (.partition ⟨.byKey es ik, none, rest⟩), ?_, ?_⟩
          · simp [IR.with_exprs_and_input, sinkWithExprs, hx, hk]
          · simp [IR.stripTree, SinkTypeIR.strip]
      | some sbs =>
        have hsb : sbs.length ≤ es.length := by
          cases variant <;> simp at hel <;> omega
        have hdrop : (es.drop (es.length - sbs.length)).length = sbs.length := by
          simp
          omega
        cases variant with
        | maxSize size =>
          refine ⟨IR.sink x (.partition ⟨.maxSize size,
            some (List.zipWith (fun s e => { s with expr := e }) sbs
              (es.drop (es.length - sbs.length))), rest⟩), ?_, ?_⟩
          · simp [IR.with_exprs_and_input, sinkWithExprs, hx, hsb]
          · simp [IR.stripTree, SinkTypeIR.strip, zipWith_strip, hdrop]
        | parted key_exprs ik =>
          have hk : key_exprs.length =
              (es.take (es.length - sbs.length)).length := by
            simp at hel ⊢
            omega
          refine ⟨IR.sink x (.partition ⟨.parted
            (es.take (es.length - sbs.length)) ik,
            some (List.zipWith (fun s e => { s with expr := e }) sbs
              (es.drop (es.length - sbs.length))), rest⟩), ?_, ?_⟩
          · simp [IR.with_exprs_and_input, sinkWithExprs, hx, hsb, hk]
          · simp [IR.stripTree, SinkTypeIR.strip, zipWith_strip, hdrop]
        | byKey key_exprs ik =>
          have hk : key_exprs.length =
              (es.take (es.length - sbs.length)).length := by
            simp at hel ⊢
            omega
          refine ⟨IR.sink x (.partition ⟨.byKey
            (es.take (es.length - sbs.length)) ik,
            some (List.zipWith (fun s e => { s with expr := e }) sbs
              (es.drop (es.length - sbs.length))), rest⟩), ?_, ?_⟩
          · simp [IR.with_exprs_and_input, sinkWithExprs, hx, hsb, hk]
          · simp [IR.stripTree, SinkTypeIR.strip, zipWith_strip, hdrop]

/-- Witness for C8 at a concrete group-by node with fresh containers. -/
theorem with_exprs_and_input_preserves_metadata_witness :
    (IR.groupBy 7 [⟨1, .alias "k"⟩] [⟨2, .alias "a"⟩] [("k", .int64)] true
        ⟨0⟩ none ≠ IR.invalid) ∧
    ([(⟨8, .alias "K"⟩ : ExprIR), ⟨9, .alias "A"⟩].length =
      [(⟨1, .alias "k"⟩ : ExprIR), ⟨2, .alias "a"⟩].length) ∧
    (∃ ir', (IR.groupBy 7 [⟨1, .alias "k"⟩] [⟨2, .alias "a"⟩]
        [("k", .int64)] true ⟨0⟩ none).with_exprs_and_input
        [⟨8, .alias "K"⟩, ⟨9, .alias "A"⟩] [5] = some ir' ∧
      ir'.stripTree = (IR.groupBy 7 [⟨1, .alias "k"⟩] [⟨2, .alias "a"⟩]
        [("k", .int64)] true ⟨0⟩ none).stripTree) :=
  ⟨by decide, by decide,
   with_exprs_and_input_preserves_metadata
     (IR.groupBy 7 [⟨1, .alias "k"⟩] [⟨2, .alias "a"⟩] [("k", .int64)] true
       ⟨0⟩ none)
     [⟨8, .alias "K"⟩, ⟨9, .alias "A"⟩] [5]
     [⟨1, .alias "k"⟩, ⟨2, .alias "a"⟩] [7]
     (by decide) (by decide) (by decide) (by decide) (by decide)⟩


/-- C10.  Every `ExprIR` produced by the three top-level lowering entry
points carries the explicit-alias output-name policy, never the inherit
policy, even for a bare column reference. -/
theorem lowered_output_name_is_alias (e : Expr) (ctx : ExprToIRContext)
    (arena : Arena) (schema : Schema) :
    (∀ r, to_expr_ir_with_context e ctx arena = .ok r →
      ∃ nm, r.1.output_name = .alias nm) ∧
    (∀ r, to_expr_ir e arena schema = .ok r →
      ∃ nm, r.1.output_name = .alias nm) ∧
    (∀ r, to_expr_ir_materialized_lit e arena schema = .ok r →
      ∃ nm, r.1.output_name = .alias nm) := by
  have key : ∀ (c : ExprToIRContext) (a : Arena) r,
      to_expr_ir_with_context e c a = .ok r →
      ∃ nm, r.1.output_name = .alias nm := by
    intro c a r hr
    unfold to_expr_ir_with_context at hr
    cases h : to_aexpr_impl e c a with
    | error err => rw [h] at hr; simp [Bind.bind, Except.bind] at hr
    | ok v =>
      obtain ⟨⟨n, nm⟩, a'⟩ := v
      rw [h] at hr
      simp [Bind.bind, Except.bind, ExprIR.new] at hr
      exact ⟨nm, by rw [← hr]⟩
  refine ⟨key ctx arena, key _ arena, ?_⟩
  intro r hr
  unfold to_expr_ir_materialized_lit at hr
  cases hm : to_aexpr_impl_materialized_lit e
      { with_fields := none, schema } arena with
  | error err => rw [hm] at hr; simp [Bind.bind, Except.bind] at hr
  | ok v =>
    obtain ⟨⟨n, nm⟩, a'⟩ := v
    rw [hm] at hr
    simp [Bind.bind, Except.bind, ExprIR.new] at hr
    exact ⟨nm, by rw [← hr]⟩

/-- Witness for C10 at a bare column reference. -/
theorem lowered_output_name_is_alias_witness :
    (to_expr_ir (.column "a") [] [("a", .int64)] =
      .ok (ExprIR.new 0 (.alias "a"), [.column "a"])) ∧
    (∃ nm, (ExprIR.new 0 (.alias "a"), ([.column "a"] : Arena)).1.output_name =
      .alias nm) :=
  ⟨by decide,
   (lowered_output_name_is_alias (.column "a") ⟨none, [("a", .int64)]⟩ []
     [("a", .int64)]).2.1 _ (by decide)⟩

/-- C3.  Output-name rules of lowering: a binary expression takes the left
operand's name, a ternary takes the truthy branch's name, and an alias
renames without inserting a wrapper node — lowering `Alias(col "a", "x")`
yields the same node handle and the same arena as lowering `col "a"`
alone. -/
theorem lowering_naming_rules :
    (to_expr_ir (.binaryExpr (.column "a") .plus (.column "b")) []
        [("a", .int64), ("b", .int64)] =
      .ok (ExprIR.new 2 (.alias "a"),
        [.column "a", .column "b", .binaryExpr 0 .plus 1])) ∧
    (to_expr_ir (.ternary (.column "p") (.column "t") (.column "f")) []
        [("p", .boolean), ("t", .int64), ("f", .int64)] =
      .ok (ExprIR.new 3 (.alias "t"),
        [.column "p", .column "t", .column "f", .ternary 0 1 2])) ∧
    (to_expr_ir (Expr.alias (.column "a") "x") [] [("a", .int64)] =
      .ok (ExprIR.new 0 (.alias "x"), [.column "a"])) ∧
    (to_expr_ir (.column "a") [] [("a", .int64)] =
      .ok (ExprIR.new 0 (.alias "a"), [.column "a"])) :=
  ⟨by decide, by decide, by decide, by decide⟩

/-- C5.  Lowering `KeepName(e)` returns the handle of lowered `e` named
after the first column (or struct field-by-name function) node found by
scanning the lowered subtree, and fails with Invalid-Operation when the
subtree contains no such node. -/
theorem keep_name_resolution (e : Expr) (ctx : ExprToIRContext)
    (arena : Arena) (n : Node) (nm : PlSmallStr) (a1 : Arena)
    (hl : to_aexpr_impl e ctx arena = .ok ((n, nm), a1)) :
    (∀ name, firstNameIn a1 n = some name →
      to_aexpr_impl (.keepName e) ctx arena = .ok ((n, name), a1)) ∧
    (firstNameIn a1 n = none →
      to_aexpr_impl (.keepName e) ctx arena =
        .error (.invalidOperation keepNameMsg)) := by
  constructor
  · intro name hf
    rw [to_aexpr_impl, hl]
    simp [Bind.bind, Except.bind, hf]
  · intro hf
    rw [to_aexpr_impl, hl]
    simp [Bind.bind, Except.bind, hf]

/-- Witness for C5: `KeepName` over a sorted column resolves to `"a"`. -/
theorem keep_name_resolution_witness :
    (to_aexpr_impl (.sort (.column "a") ⟨false, false⟩)
        ⟨none, [("a", .int64)]⟩ [] =
      .ok ((1, "a"), [.column "a", .sort 0 ⟨false, false⟩])) ∧
    (firstNameIn [.column "a", .sort 0 ⟨false, false⟩] 1 = some "a") ∧
    (to_aexpr_impl (.keepName (.sort (.column "a") ⟨false, false⟩))
        ⟨none, [("a", .int64)]⟩ [] =
      .ok ((1, "a"), [.column "a", .sort 0 ⟨false, false⟩])) :=
  ⟨by decide, by decide,
   (keep_name_resolution (.sort (.column "a") ⟨false, false⟩)
     ⟨none, [("a", .int64)]⟩ [] 1 "a" [.column "a", .sort 0 ⟨false, false⟩]
     (by decide)).1 "a" (by decide)⟩

/-- C6.  Lowering a struct-field access fails with Invalid-Operation outside
any struct scope; inside a scope it fails with an Invalid-Operation naming
the field when the field is missing, and otherwise lowers to a field-by-name
function-call node whose output name is the field. -/
theorem field_access_resolution (name : PlSmallStr) (ctx : ExprToIRContext)
    (arena : Arena) :
    (ctx.with_fields = none →
      to_aexpr_impl (.field name) ctx arena =
        .error (.invalidOperation fieldOutsideStructMsg)) ∧
    (∀ input fields, ctx.with_fields = some (input, fields) →
      (Schema.containsName fields name = false →
        to_aexpr_impl (.field name) ctx arena =
          .error (.invalidOperation (fieldNotFoundMsg name fields)) ∧
        fieldNotFoundMsg name fields =
          "field `" ++ name ++ "` does not exist on struct with fields " ++
            toString (Schema.namesOf fields)) ∧
      (Schema.containsName fields name = true →
        to_aexpr_impl (.field name) ctx arena =
          .ok ((arena.length, name),
            arena ++ [.function [ExprIR.new input (.alias "")]
              (.structExpr (.fieldByName name)) fieldByNameOptions]))) := by
  refine ⟨?_, ?_⟩
  · intro h
    rw [to_aexpr_impl, h]
  · intro input fields h
    refine ⟨?_, ?_⟩
    · intro hc
      refine ⟨?_, ?_⟩
      · rw [to_aexpr_impl, h]
        simp [hc]
      · simp [fieldNotFoundMsg, String.append_assoc]
    · intro hc
      rw [to_aexpr_impl, h]
      simp [hc, Arena.add]

/-- Witness for C6: `Field("z")` in a struct scope with fields x, y. -/
theorem field_access_resolution_witness :
    ((⟨some (4, [("x", .int64), ("y", .int64)]), []⟩ :
        ExprToIRContext).with_fields =
      some (4, [("x", .int64), ("y", .int64)])) ∧
    (Schema.containsName [("x", .int64), ("y", .int64)] "z" = false) ∧
    (to_aexpr_impl (.field "z")
        ⟨some (4, [("x", .int64), ("y", .int64)]), []⟩ [] =
      .error (.invalidOperation
        (fieldNotFoundMsg "z" [("x", .int64), ("y", .int64)])) ∧
      fieldNotFoundMsg "z" [("x", .int64), ("y", .int64)] =
        "field `" ++ "z" ++ "` does not exist on struct with fields " ++
          toString (Schema.namesOf [("x", .int64), ("y", .int64)])) :=
  ⟨rfl, by decide,
   ((field_access_resolution "z" ⟨some (4, [("x", .int64), ("y", .int64)]), []⟩
     []).2 4 [("x", .int64), ("y", .int64)] rfl).1 (by decide)⟩

/-- C7.  Lowering a cumulative evaluation fails with Invalid-Operation when
the lowered inner expression is not scalar-returning; when it is, lowering
succeeds and the new `Eval` node carries the outer expression's output
name. -/
theorem cumulative_eval_scalar (expr evaluation : Expr) (k : Nat)
    (ctx : ExprToIRContext) (arena : Arena) (n ev : Node)
    (nm enm : PlSmallStr) (a1 a2 : Arena) (dt : DataType)
    (hl : to_aexpr_impl expr ctx arena = .ok ((n, nm), a1))
    (hd : to_dtype (a1.length + 1) a1 ctx.schema n = .ok dt)
    (hev : to_aexpr_impl evaluation ⟨none, [("", dt)]⟩ a1 =
      .ok ((ev, enm), a2)) :
    (is_scalar_ae (a2.length + 1) a2 ev = false →
      to_aexpr_impl (.eval expr evaluation (.cumulative k)) ctx arena =
        .error (.invalidOperation cumulativeEvalMsg)) ∧
    (is_scalar_ae (a2.length + 1) a2 ev = true →
      to_aexpr_impl (.eval expr evaluation (.cumulative k)) ctx arena =
        .ok ((a2.length, nm), a2 ++ [.eval n ev (.cumulative k)])) := by
  constructor
  · intro hsc
    rw [to_aexpr_impl, hl]
    simp [Bind.bind, Except.bind, hd, EvalVariant.element_dtype, hev, hsc]
  · intro hsc
    rw [to_aexpr_impl, hl]
    simp [Bind.bind, Except.bind, hd, EvalVariant.element_dtype, hev, hsc,
      Arena.add]

/-- Witness for C7: a bare placeholder column is not scalar-returning. -/
theorem cumulative_eval_scalar_witness :
    (to_aexpr_impl (.column "a") ⟨none, [("a", .int64)]⟩ [] =
      .ok ((0, "a"), [.column "a"])) ∧
    (is_scalar_ae 3 [.column "a", .column ""] 1 = false) ∧
    (to_aexpr_impl (.eval (.column "a") (.column "") (.cumulative 1))
        ⟨none, [("a", .int64)]⟩ [] =
      .error (.invalidOperation cumulativeEvalMsg)) :=
  ⟨by decide, by decide,
   (cumulative_eval_scalar (.column "a") (.column "") 1
     ⟨none, [("a", .int64)]⟩ [] 0 1 "a" "" [.column "a"]
     [.column "a", .column ""] .int64 (by decide) (by decide)
     (by decide)).1 (by decide)⟩

/-- C2 (amended).  Lowering a whole-list evaluation whose lowered inner
expression contains a column node with a non-empty name fails — with a
Compute-Error, not the Invalid-Operation the claim states — and returns no
result. -/
theorem list_eval_named_column_compute_error (expr evaluation : Expr)
    (ctx : ExprToIRContext) (arena : Arena) (n ev : Node)
    (nm enm : PlSmallStr) (a1 a2 : Arena) (dt edt : DataType)
    (hl : to_aexpr_impl expr ctx arena = .ok ((n, nm), a1))
    (hd : to_dtype (a1.length + 1) a1 ctx.schema n = .ok dt)
    (hdt : EvalVariant.element_dtype .list dt = .ok edt)
    (hev : to_aexpr_impl evaluation ⟨none, [("", edt)]⟩ a1 =
      .ok ((ev, enm), a2))
    (hcol : listEvalColumnsEmpty a2 ev = false) :
    to_aexpr_impl (.eval expr evaluation .list) ctx arena =
      .error (.computeError listEvalNamedColumnMsg) := by
  rw [to_aexpr_impl, hl]
  simp [Bind.bind, Except.bind, hd, hdt, hev, hcol]

/-- Witness for C2 at `list.eval` over `col "x"`. -/
theorem list_eval_named_column_compute_error_witness :
    (listEvalColumnsEmpty [.column "a", .column "x"] 1 = false) ∧
    (to_aexpr_impl (.eval (.column "a") (.column "x") .list)
        ⟨none, [("a", .list .int64)]⟩ [] =
      .error (.computeError listEvalNamedColumnMsg)) :=
  ⟨by decide,
   list_eval_named_column_compute_error (.column "a") (.column "x")
     ⟨none, [("a", .list .int64)]⟩ [] 0 1 "a" "x" [.column "a"]
     [.column "a", .column "x"] (.list .int64) .int64 (by decide) (by decide)
     (by decide) (by decide) (by decide)⟩

/-- Counterexample for C2 as stated: the failure is a Compute-Error, not an
Invalid-Operation. -/
theorem list_eval_invalid_operation_counterexample :
    (to_expr_ir (.eval (.column "a") (.column "x") .list) []
        [("a", .list .int64)] =
      .error (.computeError listEvalNamedColumnMsg)) ∧
    (∀ m, to_expr_ir (.eval (.column "a") (.column "x") .list) []
        [("a", .list .int64)] ≠ .error (.invalidOperation m)) := by
  constructor
  · decide
  · intro m hcon
    rw [show to_expr_ir (.eval (.column "a") (.column "x") .list) []
        [("a", .list .int64)] = .error (.computeError listEvalNamedColumnMsg)
      from by decide] at hcon
    simp at hcon


def IRAggExpr.inputNode : IRAggExpr → Node
  | .min i _ => i
  | .max i _ => i
  | .median i => i
  | .nunique i => i
  | .first i => i
  | .last i => i
  | .mean i => i
  | .implode i => i
  | .count i _ => i
  | .quantile e _ _ => e
  | .sum i => i
  | .std i _ => i
  | .var i _ => i
  | .aggGroups i => i

theorem get_append_two (a : Arena) (x y : AExpr) :
    Arena.get (a ++ [x, y]) a.length = some x ∧
    Arena.get (a ++ [x, y]) (a.length + 1) = some y := by
  constructor
  · rw [Arena.get, List.getElem?_append_right (Nat.le_refl _)]
    simp
  · rw [Arena.get, List.getElem?_append_right (Nat.le_succ_of_le (Nat.le_refl _))]
    simp

theorem get_snoc (a : Arena) (x : AExpr) (i : Nat) (h : i = a.length) :
    Arena.get (a ++ [x]) i = some x := by
  subst h
  rw [Arena.get, List.getElem?_append_right (Nat.le_refl _)]
  simp

theorem get_mono (a : Arena) (t : List AExpr) (i : Nat) (h : i < a.length) :
    Arena.get (a ++ t) i = Arena.get a i := by
  rw [Arena.get, Arena.get, List.getElem?_append_left h]

/-- C4.  A bare type-ambiguous (dynamic) literal lowered through the plain
entry point is inserted with its type still unresolved (the stored node is
the `dyn` literal); lowered as the sole input of any aggregate variant, the
literal stored at the aggregate's input node is the materialized, concrete
one. -/
theorem literal_materialization :
    (∀ (v : Int) (arena : Arena) (schema : Schema),
      to_expr_ir (.literal (.dyn v)) arena schema =
        .ok (ExprIR.new arena.length (.alias "literal"),
          arena ++ [.literal (.dyn v)]) ∧
      (LiteralValue.dyn v).isDyn = true) ∧
    (∀ (e : Expr) (v : Int) (ctx : ExprToIRContext) (arena : Arena)
        (n : Node) (nm : PlSmallStr) (a' : Arena),
      e.aggInput? = some (.literal (.dyn v)) →
      to_aexpr_impl e ctx arena = .ok ((n, nm), a') →
      ∃ irAgg : IRAggExpr, Arena.get a' n = some (.agg irAgg) ∧
        irAgg.inputNode = arena.length ∧
        Arena.get a' arena.length =
          some (.literal ((LiteralValue.dyn v).materialize)) ∧
        ((LiteralValue.dyn v).materialize).isDyn = false) := by
  constructor
  · intro v arena schema
    constructor
    · rfl
    · rfl
  · intro e v ctx arena n nm a' hin himpl
    cases e <;> (try (simp [Expr.aggInput?] at hin))
    case aggMin input propagate_nans=>
      subst hin
      rw [to_aexpr_impl] at himpl
      simp [matLitStep, LiteralValue.materialize,
        LiteralValue.output_column_name, Arena.add, Bind.bind,
        Except.bind] at himpl
      obtain ⟨⟨hn, hnm⟩, ha⟩ := himpl
      subst hn
      refine ⟨.min arena.length propagate_nans, ?_, rfl, ?_, rfl⟩
      · rw [← ha]
        exact (get_append_two arena _ _).2
      · rw [← ha]
        exact (get_append_two arena _ _).1
    case aggMax input propagate_nans=>
      subst hin
      rw [to_aexpr_impl] at himpl
      simp [matLitStep, LiteralValue.materialize,
        LiteralValue.output_column_name, Arena.add, Bind.bind,
        Except.bind] at himpl
      obtain ⟨⟨hn, hnm⟩, ha⟩ := himpl
      subst hn
      refine ⟨.max arena.length propagate_nans, ?_, rfl, ?_, rfl⟩
      · rw [← ha]
        exact (get_append_two arena _ _).2
      · rw [← ha]
        exact (get_append_two arena _ _).1
    case aggMedian input =>
      subst hin
      rw [to_aexpr_impl] at himpl
      simp [matLitStep, LiteralValue.materialize,
        LiteralValue.output_column_name, Arena.add, Bind.bind,
        Except.bind] at himpl
      obtain ⟨⟨hn, hnm⟩, ha⟩ := himpl
      subst hn
      refine ⟨.median arena.length, ?_, rfl, ?_, rfl⟩
      · rw [← ha]
        exact (get_append_two arena _ _).2
      · rw [← ha]
        exact (get_append_two arena _ _).1
    case aggNUnique input =>
      subst hin
      rw [to_aexpr_impl] at himpl
      simp [matLitStep, LiteralValue.materialize,
        LiteralValue.output_column_name, Arena.add, Bind.bind,
        Except.bind] at himpl
      obtain ⟨⟨hn, hnm⟩, ha⟩ := himpl
      subst hn
      refine ⟨.nunique arena.length, ?_, rfl, ?_, rfl⟩
      · rw [← ha]
        exact (get_append_two arena _ _).2
      · rw [← ha]
        exact (get_append_two arena _ _).1
    case aggFirst input =>
      subst hin
      rw [to_aexpr_impl] at himpl
      simp [matLitStep, LiteralValue.materialize,
        LiteralValue.output_column_name, Arena.add, Bind.bind,
        Except.bind] at himpl
      obtain ⟨⟨hn, hnm⟩, ha⟩ := himpl
      subst hn
      refine ⟨.first arena.length, ?_, rfl, ?_, rfl⟩
      · rw [← ha]
        exact (get_append_two arena _ _).2
      · rw [← ha]
        exact (get_append_two arena _ _).1
    case aggLast input =>
      subst hin
      rw [to_aexpr_impl] at himpl
      simp [matLitStep, LiteralValue.materialize,
        LiteralValue.output_column_name, Arena.add, Bind.bind,
        Except.bind] at himpl
      obtain ⟨⟨hn, hnm⟩, ha⟩ := himpl
      subst hn
      refine ⟨.last arena.length, ?_, rfl, ?_, rfl⟩
      · rw [← ha]
        exact (get_append_two arena _ _).2
      · rw [← ha]
        exact (get_append_two arena _ _).1
    case aggMean input =>
      subst hin
      rw [to_aexpr_impl] at himpl
      simp [matLitStep, LiteralValue.materialize,
        LiteralValue.output_column_name, Arena.add, Bind.bind,
        Except.bind] at himpl
      obtain ⟨⟨hn, hnm⟩, ha⟩ := himpl
      subst hn
      refine ⟨.mean arena.length, ?_, rfl, ?_, rfl⟩
      · rw [← ha]
        exact (get_append_two arena _ _).2
      · rw [← ha]
        exact (get_append_two arena _ _).1
    case aggImplode input =>
      subst hin
      rw [to_aexpr_impl] at himpl
      simp [matLitStep, LiteralValue.materialize,
        LiteralValue.output_column_name, Arena.add, Bind.bind,
        Except.bind] at himpl
      obtain ⟨⟨hn, hnm⟩, ha⟩ := himpl
      subst hn
      refine ⟨.implode arena.length, ?_, rfl, ?_, rfl⟩
      · rw [← ha]
        exact (get_append_two arena _ _).2
      · rw [← ha]
        exact (get_append_two arena _ _).1
    case aggCount input include_nulls=>
      subst hin
      rw [to_aexpr_impl] at himpl
      simp [matLitStep, LiteralValue.materialize,
        LiteralValue.output_column_name, Arena.add, Bind.bind,
        Except.bind] at himpl
      obtain ⟨⟨hn, hnm⟩, ha⟩ := himpl
      subst hn
      refine ⟨.count arena.length include_nulls, ?_, rfl, ?_, rfl⟩
      · rw [← ha]
        exact (get_append_two arena _ _).2
      · rw [← ha]
        exact (get_append_two arena _ _).1
    case aggSum input =>
      subst hin
      rw [to_aexpr_impl] at himpl
      simp [matLitStep, LiteralValue.materialize,
        LiteralValue.output_column_name, Arena.add, Bind.bind,
        Except.bind] at himpl
      obtain ⟨⟨hn, hnm⟩, ha⟩ := himpl
      subst hn
      refine ⟨.sum arena.length, ?_, rfl, ?_, rfl⟩
      · rw [← ha]
        exact (get_append_two arena _ _).2
      · rw [← ha]
        exact (get_append_two arena _ _).1
    case aggStd input ddof=>
      subst hin
      rw [to_aexpr_impl] at himpl
      simp [matLitStep, LiteralValue.materialize,
        LiteralValue.output_column_name, Arena.add, Bind.bind,
        Except.bind] at himpl
      obtain ⟨⟨hn, hnm⟩, ha⟩ := himpl
      subst hn
      refine ⟨.std arena.length ddof, ?_, rfl, ?_, rfl⟩
      · rw [← ha]
        exact (get_append_two arena _ _).2
      · rw [← ha]
        exact (get_append_two arena _ _).1
    case aggVar input ddof=>
      subst hin
      rw [to_aexpr_impl] at himpl
      simp [matLitStep, LiteralValue.materialize,
        LiteralValue.output_column_name, Arena.add, Bind.bind,
        Except.bind] at himpl
      obtain ⟨⟨hn, hnm⟩, ha⟩ := himpl
      subst hn
      refine ⟨.var arena.length ddof, ?_, rfl, ?_, rfl⟩
      · rw [← ha]
        exact (get_append_two arena _ _).2
      · rw [← ha]
        exact (get_append_two arena _ _).1
    case aggGroups input =>
      subst hin
      rw [to_aexpr_impl] at himpl
      simp [matLitStep, LiteralValue.materialize,
        LiteralValue.output_column_name, Arena.add, Bind.bind,
        Except.bind] at himpl
      obtain ⟨⟨hn, hnm⟩, ha⟩ := himpl
      subst hn
      refine ⟨.aggGroups arena.length, ?_, rfl, ?_, rfl⟩
      · rw [← ha]
        exact (get_append_two arena _ _).2
      · rw [← ha]
        exact (get_append_two arena _ _).1
    case aggQuantile input quantile method =>
      subst hin
      rw [to_aexpr_impl] at himpl
      obtain ⟨⟨⟨i0, onm⟩, a1⟩, hv1, hf⟩ := except_bind_ok himpl
      simp [matLitStep, LiteralValue.materialize,
        LiteralValue.output_column_name, Arena.add] at hv1
      obtain ⟨⟨hi0, honm⟩, ha1⟩ := hv1
      subst hi0
      subst honm
      rw [← ha1] at hf
      obtain ⟨⟨⟨qn, qnm⟩, a2⟩, hq, hrest⟩ := except_bind_ok hf
      obtain ⟨t, rfl⟩ :=
        matlit_or_impl_append (lower_append_only quantile) hq
      simp [Arena.add] at hrest
      obtain ⟨⟨hn, hnm⟩, ha⟩ := hrest
      subst hn
      have hshape : arena ++
          AExpr.literal (LiteralValue.typed .int64 v) ::
            (t ++ [AExpr.agg (.quantile arena.length qn method)]) =
          ((arena ++ [AExpr.literal (LiteralValue.typed .int64 v)]) ++ t) ++
            [AExpr.agg (.quantile arena.length qn method)] := by
        simp
      refine ⟨.quantile arena.length qn method, ?_, rfl, ?_, rfl⟩
      · rw [← ha, hshape]
        exact get_snoc _ _ _ (by simp)
      · rw [← ha, hshape]
        rw [get_mono _ _ _ (by simp)]
        rw [get_mono _ _ _ (by simp)]
        exact get_snoc _ _ _ rfl

/-- Witness for C4: a bare dynamic literal stays deferred; under `sum` it is
materialized. -/
theorem literal_materialization_witness :
    (to_expr_ir (.literal (.dyn 5)) [] [] =
      .ok (ExprIR.new 0 (.alias "literal"), [.literal (.dyn 5)])) ∧
    ((Expr.aggSum (.literal (.dyn 5))).aggInput? =
      some (.literal (.dyn 5))) ∧
    (to_aexpr_impl (.aggSum (.literal (.dyn 5))) ⟨none, []⟩ [] =
      .ok ((1, "literal"),
        [.literal (.typed .int64 5), .agg (.sum 0)])) ∧
    (∃ irAgg : IRAggExpr,
      Arena.get [.literal (.typed .int64 5), .agg (.sum 0)] 1 =
        some (.agg irAgg) ∧
      irAgg.inputNode = List.length ([] : Arena) ∧
      Arena.get [.literal (.typed .int64 5), .agg (.sum 0)]
          (List.length ([] : Arena)) =
        some (.literal ((LiteralValue.dyn 5).materialize)) ∧
      ((LiteralValue.dyn 5).materialize).isDyn = false) :=
  ⟨(literal_materialization.1 5 [] []).1, by decide, by decide,
   literal_materialization.2 (.aggSum (.literal (.dyn 5))) 5 ⟨none, []⟩ []
     1 "literal" [.literal (.typed .int64 5), .agg (.sum 0)] (by decide)
     (by decide)⟩


theorem adjacentDistinct_iff_nodup : ∀ (l : List F64),
    l.Sorted (· ≤ ·) → (adjacentDistinct l = true ↔ l.Nodup)
  | [], _ => by simp [adjacentDistinct]
  | [x], _ => by simp [adjacentDistinct]
  | a :: b :: t, hs => by
    have hs' : (b :: t).Sorted (· ≤ ·) := hs.of_cons
    have hab : a ≤ b := (List.sorted_cons.mp hs).1 b (by simp)
    have ih := adjacentDistinct_iff_nodup (b :: t) hs'
    constructor
    · intro had
      simp only [adjacentDistinct, Bool.and_eq_true, decide_eq_true_eq] at had
      obtain ⟨hne, hrest⟩ := had
      refine List.nodup_cons.mpr ⟨?_, ih.mp hrest⟩
      intro hmem
      rcases List.mem_cons.mp hmem with heq | hmem'
      · exact hne heq
      · have hba : b ≤ a := (List.sorted_cons.mp hs').1 a hmem'
        exact absurd hba (not_le.mpr (lt_of_le_of_ne hab hne))
    · intro hnd
      obtain ⟨hnotin, hnd'⟩ := List.nodup_cons.mp hnd
      simp only [adjacentDistinct, Bool.and_eq_true, decide_eq_true_eq]
      exact ⟨fun heq => hnotin (by simp [heq]), ih.mpr hnd'⟩

theorem sorted_head_le {l : List F64} (hs : l.Sorted (· ≤ ·)) {x h : F64}
    (hmem : x ∈ l) (hh : l.head? = some h) : h ≤ x := by
  cases l with
  | nil => cases hmem
  | cons a t =>
    injection hh with hh
    subst hh
    rcases List.mem_cons.mp hmem with rfl | hm
    · exact le_refl _
    · exact (List.sorted_cons.mp hs).1 x hm

theorem sorted_le_getLast : ∀ {l : List F64}, l.Sorted (· ≤ ·) →
    ∀ {x g : F64}, x ∈ l → l.getLast? = some g → x ≤ g := by
  intro l
  induction l with
  | nil => intro _ x g hmem; cases hmem
  | cons a t ih =>
    intro hs x g hmem hg
    cases t with
    | nil =>
      simp at hg hmem
      subst hg
      subst hmem
      exact le_refl _
    | cons b t' =>
      rw [List.getLast?_cons_cons] at hg
      rcases List.mem_cons.mp hmem with rfl | hm
      · have h2 := List.getLast?_eq_getLast (b :: t') (by simp)
        rw [hg] at h2
        injection h2 with h2
        subst h2
        exact (List.sorted_cons.mp hs).1 _ (List.getLast_mem _)
      · exact ih hs.of_cons hm hg

theorem F64.posInf_eq_top : F64.posInf = (⊤ : F64) := rfl

theorem F64.le_negInf {x : F64} (h : x ≤ F64.negInf) :
    x = F64.nan ∨ x = F64.negInf := by
  induction x using WithBot.recBotCoe with
  | bot => exact Or.inl rfl
  | coe y =>
    right
    have : y ≤ (⊥ : WithBot (WithTop ℚ)) := WithBot.coe_le_coe.mp h
    rw [le_bot_iff] at this
    rw [this]
    rfl

theorem F64.negInf_lt_iff {x : F64} :
    F64.negInf < x ↔ (x ≠ F64.nan ∧ x ≠ F64.negInf) := by
  induction x using WithBot.recBotCoe with
  | bot =>
    simp [F64.nan, F64.negInf]
  | coe y =>
    constructor
    · intro hlt
      constructor
      · simp [F64.nan]
      · intro hcon
        rw [hcon] at hlt
        exact lt_irrefl _ hlt
    · intro ⟨h1, h2⟩
      have hy : y ≠ ⊥ := by
        intro hcon
        exact h2 (by rw [hcon]; rfl)
      exact WithBot.coe_lt_coe.mpr (Ne.bot_lt hy)

theorem F64.lt_posInf_iff {x : F64} : x < F64.posInf ↔ x ≠ F64.posInf := by
  rw [F64.posInf_eq_top]
  exact lt_top_iff_ne_top

theorem mem_not_nan {breaks : List F64} (h : breaks.any F64.isNaN = false)
    {x : F64} (hmem : x ∈ breaks) : x ≠ F64.nan := by
  intro hcon
  subst hcon
  have : breaks.any F64.isNaN = true :=
    List.any_eq_true.mpr ⟨F64.nan, hmem, by simp [F64.isNaN]⟩
  rw [h] at this
  cases this

theorem gtb_negInf_self : F64.gtb F64.negInf F64.negInf = false := by decide

theorem gtb_negInf {x : F64} (h1 : x ≠ F64.nan) (h2 : x ≠ F64.negInf) :
    F64.gtb x F64.negInf = true := by
  simp [F64.gtb, F64.isNaN, h1]
  constructor
  · decide
  · exact F64.negInf_lt_iff.mpr ⟨h1, h2⟩

theorem ltb_posInf_self : F64.ltb F64.posInf F64.posInf = false := by decide

theorem ltb_posInf {x : F64} (h1 : x ≠ F64.nan) (h2 : x ≠ F64.posInf) :
    F64.ltb x F64.posInf = true := by
  simp [F64.ltb, F64.isNaN, h1]
  constructor
  · decide
  · exact F64.lt_posInf_iff.mpr h2

/-- C9 (amended).  The validation checks of `cut`, in source order: a NaN
break fails with Compute-Error; otherwise duplicate breaks fail with a
Duplicate error; otherwise a negative-infinite (then a positive-infinite)
break fails with Compute-Error; otherwise an explicit label vector whose
length is not the number of breaks plus one fails with Shape-Mismatch. -/
theorem cut_error_kinds (s : List (Option F64)) (breaks : List F64)
    (labels : Option (List PlSmallStr)) (lc ib : Bool) :
    (breaks.any F64.isNaN = true →
      cut s breaks labels lc ib =
        .error (.computeError "breaks cannot be NaN")) ∧
    (breaks.any F64.isNaN = false → ¬ breaks.Nodup →
      cut s breaks labels lc ib =
        .error (.duplicate "breaks are not unique")) ∧
    (breaks.any F64.isNaN = false → breaks.Nodup → F64.negInf ∈ breaks →
      cut s breaks labels lc ib =
        .error (.computeError "don't include -inf in breaks")) ∧
    (breaks.any F64.isNaN = false → breaks.Nodup → F64.negInf ∉ breaks →
      F64.posInf ∈ breaks →
      cut s breaks labels lc ib =
        .error (.computeError "don't include inf in breaks")) ∧
    (∀ ls, breaks.any F64.isNaN = false → breaks.Nodup →
      F64.negInf ∉ breaks → F64.posInf ∉ breaks → labels = some ls →
      ls.length ≠ breaks.length + 1 →
      cut s breaks labels lc ib =
        .error (.shapeMismatch "provide len(quantiles) + 1 labels")) := by
  have hperm : (List.insertionSort (· ≤ ·) breaks).Perm breaks :=
    List.perm_insertionSort _ _
  have hsort : (List.insertionSort (· ≤ ·) breaks).Sorted (· ≤ ·) :=
    List.sorted_insertionSort _ _
  refine ⟨?_, ?_, ?_, ?_, ?_⟩
  · intro h1
    simp [cut, h1]
  · intro h1 h2
    have hnd : ¬ (List.insertionSort (· ≤ ·) breaks).Nodup := fun hc =>
      h2 (hperm.nodup_iff.mp hc)
    have had : adjacentDistinct (List.insertionSort (· ≤ ·) breaks) = false := by
      cases hb : adjacentDistinct (List.insertionSort (· ≤ ·) breaks) with
      | false => rfl
      | true =>
        exact absurd ((adjacentDistinct_iff_nodup _ hsort).mp hb) hnd
    simp [cut, h1, had]
  · intro h1 h2 h3
    have hnd : (List.insertionSort (· ≤ ·) breaks).Nodup :=
      hperm.nodup_iff.mpr h2
    have had : adjacentDistinct (List.insertionSort (· ≤ ·) breaks) = true :=
      (adjacentDistinct_iff_nodup _ hsort).mpr hnd
    have hmem : F64.negInf ∈ List.insertionSort (· ≤ ·) breaks :=
      hperm.mem_iff.mpr h3
    obtain ⟨h0, t0, hcons⟩ : ∃ h0 t0,
        List.insertionSort (· ≤ ·) breaks = h0 :: t0 := by
      cases hc : List.insertionSort (· ≤ ·) breaks with
      | nil => rw [hc] at hmem; cases hmem
      | cons a t => exact ⟨a, t, rfl⟩
    have hh : (List.insertionSort (· ≤ ·) breaks).head? = some h0 := by
      rw [hcons]; rfl
    have hmem0 : h0 ∈ List.insertionSort (· ≤ ·) breaks := by
      rw [hcons]; simp
    have hh0 : h0 = F64.negInf := by
      have hle : h0 ≤ F64.negInf := sorted_head_le hsort hmem hh
      rcases F64.le_negInf hle with hnan | heq
      · exact absurd hnan (mem_not_nan h1 (hperm.mem_iff.mp hmem0))
      · exact heq
    subst hh0
    obtain ⟨g, hg⟩ : ∃ g,
        (List.insertionSort (· ≤ ·) breaks).getLast? = some g := by
      rw [hcons]
      exact ⟨_, List.getLast?_eq_getLast _ (by simp)⟩
    simp [cut, h1, had, hh, hg, gtb_negInf_self]
  · intro h1 h2 h3 h4
    have hnd : (List.insertionSort (· ≤ ·) breaks).Nodup :=
      hperm.nodup_iff.mpr h2
    have had : adjacentDistinct (List.insertionSort (· ≤ ·) breaks) = true :=
      (adjacentDistinct_iff_nodup _ hsort).mpr hnd
    have hmem : F64.posInf ∈ List.insertionSort (· ≤ ·) breaks :=
      hperm.mem_iff.mpr h4
    obtain ⟨h0, t0, hcons⟩ : ∃ h0 t0,
        List.insertionSort (· ≤ ·) breaks = h0 :: t0 := by
      cases hc : List.insertionSort (· ≤ ·) breaks with
      | nil => rw [hc] at hmem; cases hmem
      | cons a t => exact ⟨a, t, rfl⟩
    have hh : (List.insertionSort (· ≤ ·) breaks).head? = some h0 := by
      rw [hcons]; rfl
    have hmem0 : h0 ∈ List.insertionSort (· ≤ ·) breaks := by
      rw [hcons]; simp
    have hgtb : F64.gtb h0 F64.negInf = true :=
      gtb_negInf (mem_not_nan h1 (hperm.mem_iff.mp hmem0))
        (fun hc => h3 (hc ▸ hperm.mem_iff.mp hmem0))
    obtain ⟨g, hg⟩ : ∃ g,
        (List.insertionSort (· ≤ ·) breaks).getLast? = some g := by
      rw [hcons]
      exact ⟨_, List.getLast?_eq_getLast _ (by simp)⟩
    have hgmem : g ∈ List.insertionSort (· ≤ ·) breaks := by
      have h2x := List.getLast?_eq_getLast
        (List.insertionSort (· ≤ ·) breaks) (by rw [hcons]; simp)
      rw [hg] at h2x
      injection h2x with h2x
      rw [h2x]
      exact List.getLast_mem _
    have hgeq : g = F64.posInf := by
      have hle : F64.posInf ≤ g := sorted_le_getLast hsort hmem hg
      have hge : g ≤ F64.posInf := by
        rw [F64.posInf_eq_top]; exact le_top
      exact (le_antisymm hge hle)
    subst hgeq
    simp [cut, h1, had, hh, hg, hgtb, ltb_posInf_self]
  · intro ls h1 h2 h3 h4 hlab hlen
    have hnd : (List.insertionSort (· ≤ ·) breaks).Nodup :=
      hperm.nodup_iff.mpr h2
    have had : adjacentDistinct (List.insertionSort (· ≤ ·) breaks) = true :=
      (adjacentDistinct_iff_nodup _ hsort).mpr hnd
    subst hlab
    cases hc : List.insertionSort (· ≤ ·) breaks with
    | nil =>
      have hbr : breaks = [] := by
        rw [hc] at hperm
        exact hperm.symm.eq_nil
      subst hbr
      simp only [List.length_nil, Nat.zero_add] at hlen
      simp [cut, adjacentDistinct, hlen]
    | cons a t =>
      have hh : (List.insertionSort (· ≤ ·) breaks).head? = some a := by
        rw [hc]; rfl
      have hmem0 : a ∈ List.insertionSort (· ≤ ·) breaks := by
        rw [hc]; simp
      have hgtb : F64.gtb a F64.negInf = true :=
        gtb_negInf (mem_not_nan h1 (hperm.mem_iff.mp hmem0))
          (fun hcc => h3 (hcc ▸ hperm.mem_iff.mp hmem0))
      obtain ⟨g, hg⟩ : ∃ g,
          (List.insertionSort (· ≤ ·) breaks).getLast? = some g := by
        rw [hc]
        exact ⟨_, List.getLast?_eq_getLast _ (by simp)⟩
      have hgmem : g ∈ List.insertionSort (· ≤ ·) breaks := by
        have h2x := List.getLast?_eq_getLast
          (List.insertionSort (· ≤ ·) breaks) (by rw [hc]; simp)
        rw [hg] at h2x
        injection h2x with h2x
        rw [h2x]
        exact List.getLast_mem _
      have hltb : F64.ltb g F64.posInf = true :=
        ltb_posInf (mem_not_nan h1 (hperm.mem_iff.mp hgmem))
          (fun hcc => h4 (hcc ▸ hperm.mem_iff.mp hgmem))
      simp [cut, h1, had, hh, hg, hgtb, hltb, hlen]

/-- Counterexample for C9 as stated: with breaks `[-inf, -inf]` the smallest
break is negative infinity, yet `cut` fails with the Duplicate error — the
duplicate check runs before the infinity checks — not with the Compute-Error
the claim assigns to infinite end breaks. -/
theorem cut_inf_duplicate_counterexample :
    (cut [] [F64.negInf, F64.negInf] none false false =
      .error (.duplicate "breaks are not unique")) ∧
    (F64.negInf ∈ [F64.negInf, F64.negInf]) ∧
    (∀ m, cut [] [F64.negInf, F64.negInf] none false false ≠
      .error (.computeError m)) := by
  refine ⟨by decide, by decide, ?_⟩
  intro m hcon
  rw [show cut [] [F64.negInf, F64.negInf] none false false =
      .error (.duplicate "breaks are not unique") from by decide] at hcon
  simp at hcon

/-- Witness for C9 at a NaN break. -/
theorem cut_error_kinds_witness :
    ([F64.nan].any F64.isNaN = true) ∧
    (cut [] [F64.nan] none false false =
      .error (.computeError "breaks cannot be NaN")) :=
  ⟨by decide,
   (cut_error_kinds [] [F64.nan] none false false).1 (by decide)⟩

end PolarsSpec
